import Mathlib

set_option maxRecDepth 100000

/-!
# Verification of the weekly menu-combo planner (`src/main.go`)

Shallow embedding of the Go program's core: the catalog data model, the
metrics evaluator (`calculateComboMetrics`, `isValidCombo`), the reasoning
formatter (`generateReasoning`), the per-day rejection sampler
(`generateDailyCombos`) and the week planner (`generateMenuSuggestions`).

Modelling conventions:
* Go `float64` popularity scores are modelled as exact rationals (`ℚ`);
  Go `int` calorie fields as `Int`.
* The seeded global `math/rand` source is modelled as an explicit stream
  `rng : Nat → Nat × Nat × Nat`: the value at position `p` supplies the three
  `rand.Intn` results of the `p`-th draw of the run (reduced mod the pool
  sizes).  A cursor `rngPos` threads the stream through the run.
* Go maps keyed by strings are modelled as association lists where an insert
  conses a fresh binding in front, so `List.lookup` sees the latest write,
  and set-valued maps as lists of members queried with `List.contains`.
* The `usedItemsForDay1 *map[string]bool` pointer (nil on all days but the
  first) is modelled as the flag `useDay1` plus the persistent `day1Used`
  field of the generator state.
* `dayNames[dayIndex]` panics in Go when `dayIndex ≥ 7`; the week loop
  therefore returns an `Option`, `none` modelling the aborted run.
-/

namespace MenuPlanner

/-- `MenuItem` (src/main.go:17-23). -/
structure MenuItem where
  itemName : String
  category : String
  calories : Int
  tasteProfile : String
  popularityScore : ℚ
  deriving DecidableEq, Repr, Inhabited

/-- `Combo` (src/main.go:26-34). -/
structure Combo where
  comboID : String
  main : String
  side : String
  drink : String
  calorieCount : Int
  popularityAvg : ℚ
  reasoning : String
  deriving DecidableEq, Repr, Inhabited

/-- `DailyMenu` (src/main.go:37-40). -/
structure DailyMenu where
  day : String
  combos : List Combo
  deriving DecidableEq, Repr, Inhabited

/-- `MenuPlan` (src/main.go:43-45). -/
structure MenuPlan where
  menuPlan : List DailyMenu
  deriving DecidableEq, Repr, Inhabited

/-- `categorizeMenu` (src/main.go:62-68): Go appends each item to the slice
for its category in input order, so the pool for a category is the
order-preserving filter of the items carrying that category string. -/
def categorizeMenu (items : List MenuItem) (category : String) : List MenuItem :=
  items.filter (fun item => item.category == category)

/-- `calculateComboMetrics` (src/main.go:71-75): total calories and average
popularity of the three items. -/
def calculateComboMetrics (main side drink : MenuItem) : Int × ℚ :=
  (main.calories + side.calories + drink.calories,
   (main.popularityScore + side.popularityScore + drink.popularityScore) / 3)

/-- `isValidCombo` (src/main.go:78-92).  Go sorts the three popularity scores
ascending and rejects when last − first (the maximum minus the minimum)
exceeds the tolerance; the max/min expressions below are that value. -/
def isValidCombo (main side drink : MenuItem)
    (minCalories maxCalories : Int) (popularityTolerance : ℚ) : Bool :=
  let totalCalories := (calculateComboMetrics main side drink).1
  if ¬ (totalCalories ≥ minCalories ∧ totalCalories ≤ maxCalories) then
    false
  else
    let popularityScores :=
      [main.popularityScore, side.popularityScore, drink.popularityScore]
    if popularityScores.length > 1 ∧
        max main.popularityScore (max side.popularityScore drink.popularityScore) -
          min main.popularityScore (min side.popularityScore drink.popularityScore) >
          popularityTolerance then
      false
    else
      true

/-- The `tasteDesc` local of `generateReasoning` (src/main.go:96-116).  The Go
set of taste profiles (a `map[string]bool`) is the dedup of the three profile
strings.  In the single-profile branch Go prints the map's only key; all
three inserted profiles are then equal, so that key is the main item's. -/
def tasteDescription (main side drink : MenuItem) : String :=
  let tasteProfiles := [main.tasteProfile, side.tasteProfile, drink.tasteProfile].dedup
  if tasteProfiles.length = 1 then
    "a " ++ main.tasteProfile ++ " profile"
  else if "spicy" ∈ tasteProfiles then
    "a spicy and mixed taste profile"
  else if "sweet" ∈ tasteProfiles then
    "a sweet and mixed taste profile"
  else if "savory" ∈ tasteProfiles then
    "a savory and mixed taste profile"
  else if "fresh" ∈ tasteProfiles then
    "a fresh and mixed taste profile"
  else
    "a mixed taste profile"

/-- Go `math.Round` (round half away from zero), on exact rationals. -/
def goRound (x : ℚ) : Int :=
  if x < 0 then -⌊-x + 1 / 2⌋ else ⌊x + 1 / 2⌋

/-- `math.Round(avg*100)/100` (src/main.go:193). -/
def roundTo2 (x : ℚ) : ℚ :=
  (goRound (x * 100) : ℚ) / 100

/-- Decimal rendering with two digits after the point, modelling the `%.2f`
verb of `fmt.Sprintf` for the nonnegative averages the program prints. -/
def format2 (x : ℚ) : String :=
  let cents : Int := goRound (x * 100)
  let whole := cents / 100
  let frac := (cents % 100).natAbs
  toString whole ++ "." ++ (if frac < 10 then "0" else "") ++ toString frac

/-- `generateReasoning` (src/main.go:95-120): the fixed sentence template
around the taste description, the 2-decimal average popularity and the total
calorie count. -/
def generateReasoning (main side drink : MenuItem)
    (totalCalories : Int) (avgPopularity : ℚ) : String :=
  "This combo features " ++ tasteDescription main side drink ++
    ", consists of popular choices (average popularity: " ++ format2 avgPopularity ++
    "), and meets the calorie target (" ++ toString totalCalories ++ " kcal)."

/-- Insertion step of sorting the item names (Go `sort.Strings`,
src/main.go:170). -/
def insertName (x : String) : List String → List String
  | [] => [x]
  | y :: ys => if x ≤ y then x :: y :: ys else y :: insertName x ys

/-- Ascending insertion sort of a list of names. -/
def sortNames (l : List String) : List String :=
  l.foldr insertName []

/-- The combo signature (src/main.go:169-171): the three item names sorted
ascending and joined with an underscore. -/
def comboSignature (m s d : String) : String :=
  String.intercalate "_" (sortNames [m, s, d])

/-- The signature of an already-built combo record. -/
def comboSigOf (c : Combo) : String :=
  comboSignature c.main c.side c.drink

/-- The three constituent names of a combo. -/
def comboNames (c : Combo) : List String :=
  [c.main, c.side, c.drink]

/-- Read access to the signature → last-day map.  The map is an association
list whose most recent binding is in front, so the first hit is the latest
write, as in the Go `map[string]int`. -/
def lookupSig : List (String × Nat) → String → Option Nat
  | [], _ => none
  | (k, v) :: rest, s => if k = s then some v else lookupSig rest s

/-- Mutable state threaded through one plan-generation run: the position in
the random stream, the day-0 used-item set (`day1OverallUsedItems`,
src/main.go:233), the signature → last-day map
(`allGeneratedComboSignatures`, src/main.go:235) and the shared identifier
counter (`globalComboCounter`, src/main.go:236). -/
structure GenState where
  rngPos : Nat
  day1Used : List String
  sigMap : List (String × Nat)
  globalComboCounter : Nat
  deriving DecidableEq, Repr, Inhabited

/-- The `isUniqueForDay1` flag (src/main.go:157-162): vacuously true when the
day-0 pointer is nil, otherwise none of the three drawn names may already be
in the day-0 used set. -/
def isUniqueForDay1 (useDay1 : Bool) (day1Used : List String)
    (mainItem sideItem drinkItem : MenuItem) : Bool :=
  if useDay1 then
    !(day1Used.contains mainItem.itemName ||
      day1Used.contains sideItem.itemName ||
      day1Used.contains drinkItem.itemName)
  else
    true

/-- The `isUniqueForCurrentDayItems` flag (src/main.go:164-167): none of the
three drawn names may already be used by a combo accepted earlier today. -/
def isUniqueForCurrentDayItems (currentDayUsedItems : List String)
    (mainItem sideItem drinkItem : MenuItem) : Bool :=
  !(currentDayUsedItems.contains mainItem.itemName ||
    currentDayUsedItems.contains sideItem.itemName ||
    currentDayUsedItems.contains drinkItem.itemName)

/-- The `isUniqueWithin3Days` flag (src/main.go:174-179): reject when the
signature was last accepted on a day less than 3 days back. -/
def isUniqueWithin3Days (sigMap : List (String × Nat)) (currentDayIndex : Nat)
    (sig : String) : Bool :=
  match lookupSig sigMap sig with
  | some lastUsedDay =>
    if (currentDayIndex : Int) - (lastUsedDay : Int) < 3 then false else true
  | none => true

/-- The `Combo` record built on acceptance (src/main.go:184-195), from the
three drawn items and the post-increment value of the identifier counter. -/
def buildCombo (mainItem sideItem drinkItem : MenuItem) (newCounter : Nat) : Combo :=
  let metrics := calculateComboMetrics mainItem sideItem drinkItem
  { comboID := "combo_" ++ toString newCounter
    main := mainItem.itemName
    side := sideItem.itemName
    drink := drinkItem.itemName
    calorieCount := metrics.1
    popularityAvg := roundTo2 metrics.2
    reasoning := generateReasoning mainItem sideItem drinkItem metrics.1 metrics.2 }

/-- One iteration of the attempt loop of `generateDailyCombos`
(src/main.go:150-212): draw one item per role from the stream at the state's
cursor, reject (`none`) on day-0 reuse, same-day reuse, a signature repeated
within the trailing 3-day window, or `isValidCombo` failure; on acceptance
build the `Combo` and return it with the updated used-item list and state.
The accepting state's cursor is advanced past the consumed draw; on a
rejection the caller advances it. -/
def attemptCombo (mains sides drinks : List MenuItem) (minCalories maxCalories : Int)
    (rng : Nat → Nat × Nat × Nat) (useDay1 : Bool) (currentDayIndex : Nat)
    (currentDayUsedItems : List String) (st : GenState) :
    Option (Combo × List String × GenState) :=
  let draw := rng st.rngPos
  let mainItem := mains.getD (draw.1 % mains.length) default
  let sideItem := sides.getD (draw.2.1 % sides.length) default
  let drinkItem := drinks.getD (draw.2.2 % drinks.length) default
  let sig := comboSignature mainItem.itemName sideItem.itemName drinkItem.itemName
  if isUniqueForDay1 useDay1 st.day1Used mainItem sideItem drinkItem &&
      isUniqueForCurrentDayItems currentDayUsedItems mainItem sideItem drinkItem &&
      isUniqueWithin3Days st.sigMap currentDayIndex sig &&
      isValidCombo mainItem sideItem drinkItem minCalories maxCalories (15 / 100 : ℚ) then
    some (buildCombo mainItem sideItem drinkItem (st.globalComboCounter + 1),
      mainItem.itemName :: sideItem.itemName :: drinkItem.itemName :: currentDayUsedItems,
      { rngPos := st.rngPos + 1
        day1Used :=
          if useDay1 then
            mainItem.itemName :: sideItem.itemName :: drinkItem.itemName :: st.day1Used
          else
            st.day1Used
        sigMap := (sig, currentDayIndex) :: st.sigMap
        globalComboCounter := st.globalComboCounter + 1 })
  else
    none

/-- The attempt loop for one slot of `generateDailyCombos`
(src/main.go:148-213): up to `fuel` (5000 at the call site) attempts, each one
iteration of `attemptCombo`; stops at the first acceptance. -/
def findCombo (mains sides drinks : List MenuItem) (minCalories maxCalories : Int)
    (rng : Nat → Nat × Nat × Nat) (useDay1 : Bool) (currentDayIndex : Nat)
    (currentDayUsedItems : List String) :
    GenState → Nat → Option Combo × List String × GenState
  | st, 0 => (none, currentDayUsedItems, st)
  | st, fuel + 1 =>
    match attemptCombo mains sides drinks minCalories maxCalories rng useDay1
        currentDayIndex currentDayUsedItems st with
    | some (combo, used2, st2) => (some combo, used2, st2)
    | none =>
      findCombo mains sides drinks minCalories maxCalories rng useDay1 currentDayIndex
        currentDayUsedItems { st with rngPos := st.rngPos + 1 } fuel

/-- The per-slot loop of `generateDailyCombos` (src/main.go:147-219):
`numCombosPerDay` slots, each with a 5000-attempt budget; a slot whose budget
is exhausted breaks out of the loop, so no later slot of that day is
attempted and the combos accepted so far are kept. -/
def dailySlots (mains sides drinks : List MenuItem) (minCalories maxCalories : Int)
    (rng : Nat → Nat × Nat × Nat) (useDay1 : Bool) (currentDayIndex : Nat) :
    List String → GenState → Nat → List Combo × GenState
  | _, st, 0 => ([], st)
  | used, st, n + 1 =>
    match findCombo mains sides drinks minCalories maxCalories rng useDay1
        currentDayIndex used st 5000 with
    | (some combo, used2, st2) =>
      let rest := dailySlots mains sides drinks minCalories maxCalories rng useDay1
        currentDayIndex used2 st2 n
      (combo :: rest.1, rest.2)
    | (none, _, st2) => ([], st2)

/-- `generateDailyCombos` (src/main.go:124-221): look up the three role
pools, return an empty day when one of them is empty (src/main.go:140-143),
otherwise run the slot loop starting from an empty current-day used set. -/
def generateDailyCombos (categorizedMenu : String → List MenuItem)
    (numCombosPerDay : Nat) (minCalories maxCalories : Int)
    (rng : Nat → Nat × Nat × Nat) (useDay1 : Bool) (currentDayIndex : Nat)
    (st : GenState) : List Combo × GenState :=
  let mains := categorizedMenu "main"
  let sides := categorizedMenu "side"
  let drinks := categorizedMenu "drink"
  if mains.length = 0 ∨ sides.length = 0 ∨ drinks.length = 0 then
    ([], st)
  else
    dailySlots mains sides drinks minCalories maxCalories rng useDay1 currentDayIndex
      [] st numCombosPerDay

/-- `dayNames` (src/main.go:238). -/
def dayNames : List String :=
  ["Monday", "Tuesday", "Wednesday", "Thursday", "Friday", "Saturday", "Sunday"]

/-- The day loop of `generateMenuSuggestions` (src/main.go:240-270).  Go
evaluates `dayNames[dayIndex]` at the top of each iteration and panics when
the index is out of range; `none` models that aborted run.  The day-0
exclusivity pointer is non-nil exactly when `dayIndex == 0`
(src/main.go:243-248). -/
def weekLoop (categorizedMenu : String → List MenuItem)
    (numCombosPerDay : Nat) (minCalories maxCalories : Int)
    (rng : Nat → Nat × Nat × Nat) :
    Nat → Nat → GenState → Option (List DailyMenu × GenState)
  | _, 0, st => some ([], st)
  | dayIndex, remaining + 1, st =>
    match dayNames.get? dayIndex with
    | none => none
    | some name =>
      let day := generateDailyCombos categorizedMenu numCombosPerDay minCalories
        maxCalories rng (dayIndex == 0) dayIndex st
      match weekLoop categorizedMenu numCombosPerDay minCalories maxCalories rng
          (dayIndex + 1) remaining day.2 with
      | none => none
      | some rest => some ({ day := name, combos := day.1 } :: rest.1, rest.2)

/-- `generateMenuSuggestions` (src/main.go:224-272): categorize the catalog
once, start from a fresh tracker state and a zero identifier counter, and run
the day loop from day index 0. -/
def generateMenuSuggestions (masterMenu : List MenuItem)
    (numDays numCombosPerDay : Nat) (minCalories maxCalories : Int)
    (rng : Nat → Nat × Nat × Nat) : Option MenuPlan :=
  let categorizedMenu := categorizeMenu masterMenu
  let st0 : GenState :=
    { rngPos := 0, day1Used := [], sigMap := [], globalComboCounter := 0 }
  match weekLoop categorizedMenu numCombosPerDay minCalories maxCalories rng 0 numDays st0 with
  | none => none
  | some r => some { menuPlan := r.1 }

/-- All combos of a plan, day by day in acceptance order. -/
def planCombos (days : List DailyMenu) : List Combo :=
  days.flatMap DailyMenu.combos

/-! ## Basic lemmas about one attempt -/

theorem getD_mem_of_lt {l : List MenuItem} {n : Nat} (h : n < l.length) (d : MenuItem) :
    l.getD n d ∈ l := by
  rw [List.getD_eq_getElem l d h]
  exact List.getElem_mem h

theorem isUniqueForCurrentDayItems_true {used : List String} {m s d : MenuItem}
    (h : isUniqueForCurrentDayItems used m s d = true) :
    m.itemName ∉ used ∧ s.itemName ∉ used ∧ d.itemName ∉ used := by
  have h' := h
  simp only [isUniqueForCurrentDayItems, Bool.not_eq_true', Bool.or_eq_false_iff,
    List.elem_eq_mem, decide_eq_false_iff_not] at h'
  exact ⟨h'.1.1, h'.1.2, h'.2⟩

theorem isUniqueForDay1_true {day1Used : List String} {m s d : MenuItem}
    (h : isUniqueForDay1 true day1Used m s d = true) :
    m.itemName ∉ day1Used ∧ s.itemName ∉ day1Used ∧ d.itemName ∉ day1Used := by
  have h' := h
  simp only [isUniqueForDay1, if_true, Bool.not_eq_true', Bool.or_eq_false_iff,
    List.elem_eq_mem, decide_eq_false_iff_not] at h'
  exact ⟨h'.1.1, h'.1.2, h'.2⟩

theorem isUniqueWithin3Days_true {sigMap : List (String × Nat)} {k : Nat} {sig : String}
    {lastDay : Nat} (h : isUniqueWithin3Days sigMap k sig = true)
    (hl : lookupSig sigMap sig = some lastDay) :
    (3 : Int) ≤ (k : Int) - (lastDay : Int) := by
  simp only [isUniqueWithin3Days, hl] at h
  by_cases hlt : (k : Int) - (lastDay : Int) < 3
  · rw [if_pos hlt] at h
    cases h
  · omega

/-- Everything one accepted attempt guarantees. -/
theorem attemptCombo_some
    {mains sides drinks : List MenuItem} {minC maxC : Int}
    {rng : Nat → Nat × Nat × Nat} {useDay1 : Bool} {k : Nat}
    {used : List String} {st : GenState} {c : Combo} {used2 : List String} {st2 : GenState}
    (hm : mains ≠ []) (hs : sides ≠ []) (hd : drinks ≠ [])
    (h : attemptCombo mains sides drinks minC maxC rng useDay1 k used st =
      some (c, used2, st2)) :
    ∃ m ∈ mains, ∃ s ∈ sides, ∃ d ∈ drinks,
      c.main = m.itemName ∧ c.side = s.itemName ∧ c.drink = d.itemName ∧
      isValidCombo m s d minC maxC (15 / 100 : ℚ) = true ∧
      c.calorieCount = m.calories + s.calories + d.calories ∧
      c.comboID = "combo_" ++ toString (st.globalComboCounter + 1) ∧
      used2 = c.main :: c.side :: c.drink :: used ∧
      st2.day1Used =
        (if useDay1 = true then c.main :: c.side :: c.drink :: st.day1Used
         else st.day1Used) ∧
      st2.sigMap = (comboSigOf c, k) :: st.sigMap ∧
      st2.globalComboCounter = st.globalComboCounter + 1 ∧
      st2.rngPos = st.rngPos + 1 ∧
      c.main ∉ used ∧ c.side ∉ used ∧ c.drink ∉ used ∧
      (∀ lastDay, lookupSig st.sigMap (comboSigOf c) = some lastDay →
        (3 : Int) ≤ (k : Int) - (lastDay : Int)) ∧
      (useDay1 = true →
        c.main ∉ st.day1Used ∧ c.side ∉ st.day1Used ∧ c.drink ∉ st.day1Used) := by
  rw [attemptCombo] at h
  split at h
  case isFalse => exact absurd h (by simp)
  case isTrue hcond =>
    rw [Option.some_inj, Prod.mk.injEq, Prod.mk.injEq] at h
    obtain ⟨hc, hu2, hst2⟩ := h
    simp only [Bool.and_eq_true] at hcond
    obtain ⟨⟨⟨h1, h2⟩, h3⟩, h4⟩ := hcond
    subst hc hu2 hst2
    obtain ⟨hm1, hm2, hm3⟩ := isUniqueForCurrentDayItems_true h2
    refine ⟨mains.getD ((rng st.rngPos).1 % mains.length) default,
      getD_mem_of_lt (Nat.mod_lt _ (List.length_pos.mpr hm)) _,
      sides.getD ((rng st.rngPos).2.1 % sides.length) default,
      getD_mem_of_lt (Nat.mod_lt _ (List.length_pos.mpr hs)) _,
      drinks.getD ((rng st.rngPos).2.2 % drinks.length) default,
      getD_mem_of_lt (Nat.mod_lt _ (List.length_pos.mpr hd)) _,
      rfl, rfl, rfl, h4, rfl, rfl, rfl, rfl, rfl, rfl, rfl, hm1, hm2, hm3, ?_, ?_⟩
    · intro lastDay hl
      exact isUniqueWithin3Days_true h3 hl
    · intro hday1
      subst hday1
      exact isUniqueForDay1_true h1

/-! ## Lemmas about the attempt loop -/

/-- A failed slot search leaves everything but the stream cursor unchanged
and consumes exactly its full attempt budget. -/
theorem findCombo_none
    {mains sides drinks : List MenuItem} {minC maxC : Int}
    {rng : Nat → Nat × Nat × Nat} {useDay1 : Bool} {k : Nat}
    {used : List String} {st : GenState} {fuel : Nat} {used2 : List String} {st2 : GenState}
    (h : findCombo mains sides drinks minC maxC rng useDay1 k used st fuel =
      (none, used2, st2)) :
    used2 = used ∧ st2.day1Used = st.day1Used ∧ st2.sigMap = st.sigMap ∧
      st2.globalComboCounter = st.globalComboCounter ∧ st2.rngPos = st.rngPos + fuel := by
  induction fuel generalizing st with
  | zero =>
    rw [findCombo] at h
    rw [Prod.mk.injEq, Prod.mk.injEq] at h
    obtain ⟨-, h1, h2⟩ := h
    subst h1 h2
    exact ⟨rfl, rfl, rfl, rfl, rfl⟩
  | succ fuel ih =>
    rw [findCombo] at h
    cases hA : attemptCombo mains sides drinks minC maxC rng useDay1 k used st with
    | some v =>
      obtain ⟨cv, uv, sv⟩ := v
      rw [hA] at h
      simp at h
    | none =>
      rw [hA] at h
      obtain ⟨e1, e2, e3, e4, e5⟩ := ih h
      refine ⟨e1, e2, e3, e4, ?_⟩
      have e5' : st2.rngPos = st.rngPos + 1 + fuel := e5
      omega

/-- A successful slot search is one successful attempt launched from a state
that differs from the initial one only in the stream cursor, which stays
within the attempt budget. -/
theorem findCombo_some
    {mains sides drinks : List MenuItem} {minC maxC : Int}
    {rng : Nat → Nat × Nat × Nat} {useDay1 : Bool} {k : Nat}
    {used : List String} {st : GenState} {fuel : Nat}
    {c : Combo} {used2 : List String} {st2 : GenState}
    (h : findCombo mains sides drinks minC maxC rng useDay1 k used st fuel =
      (some c, used2, st2)) :
    ∃ stMid : GenState, stMid.day1Used = st.day1Used ∧ stMid.sigMap = st.sigMap ∧
      stMid.globalComboCounter = st.globalComboCounter ∧
      st.rngPos ≤ stMid.rngPos ∧ stMid.rngPos < st.rngPos + fuel ∧
      attemptCombo mains sides drinks minC maxC rng useDay1 k used stMid =
        some (c, used2, st2) := by
  induction fuel generalizing st with
  | zero =>
    rw [findCombo] at h
    simp at h
  | succ fuel ih =>
    rw [findCombo] at h
    cases hA : attemptCombo mains sides drinks minC maxC rng useDay1 k used st with
    | some v =>
      obtain ⟨cv, uv, sv⟩ := v
      rw [hA] at h
      simp only [Prod.mk.injEq, Option.some_inj] at h
      obtain ⟨h1, h2, h3⟩ := h
      subst h1 h2 h3
      exact ⟨st, rfl, rfl, rfl, Nat.le_refl _, by omega, hA⟩
    | none =>
      rw [hA] at h
      obtain ⟨stMid, e1, e2, e3, e4, e5, e6⟩ := ih h
      have e4' : st.rngPos + 1 ≤ stMid.rngPos := e4
      have e5' : stMid.rngPos < st.rngPos + 1 + fuel := e5
      exact ⟨stMid, e1, e2, e3, by omega, by omega, e6⟩

/-! ## Lemmas about one day of generation -/

/-- Every combo accepted during one day is built from one item of each role
pool and passed the validity check with the hard-coded 0.15 tolerance. -/
theorem dailySlots_shape
    {mains sides drinks : List MenuItem} {minC maxC : Int}
    {rng : Nat → Nat × Nat × Nat} {useDay1 : Bool} {k : Nat}
    (hm : mains ≠ []) (hs : sides ≠ []) (hd : drinks ≠ [])
    {used : List String} {st : GenState} {n : Nat} {c : Combo}
    (hc : c ∈ (dailySlots mains sides drinks minC maxC rng useDay1 k used st n).1) :
    ∃ m ∈ mains, ∃ s ∈ sides, ∃ d ∈ drinks,
      c.main = m.itemName ∧ c.side = s.itemName ∧ c.drink = d.itemName ∧
      isValidCombo m s d minC maxC (15 / 100 : ℚ) = true ∧
      c.calorieCount = m.calories + s.calories + d.calories := by
  induction n generalizing used st with
  | zero =>
    rw [dailySlots] at hc
    simp at hc
  | succ n ih =>
    rw [dailySlots] at hc
    cases hF : findCombo mains sides drinks minC maxC rng useDay1 k used st 5000 with
    | mk res rest =>
      obtain ⟨used2, st2⟩ := rest
      cases res with
      | none =>
        rw [hF] at hc
        simp at hc
      | some c1 =>
        rw [hF] at hc
        simp only [List.mem_cons] at hc
        cases hc with
        | inl hc1 =>
          subst hc1
          obtain ⟨stMid, e1, e2, e3, e4, e5, e6⟩ := findCombo_some hF
          obtain ⟨m, hmm, s, hsm, d, hdm, f1, f2, f3, f4, f5, -⟩ := attemptCombo_some hm hs hd e6
          exact ⟨m, hmm, s, hsm, d, hdm, f1, f2, f3, f4, f5⟩
        | inr hc2 =>
          exact ih hc2



/-- State evolution across one day: the signature map gains exactly one
binding (to the current day index) per accepted combo, the identifier counter
advances exactly once per accepted combo, at most `n` combos are produced,
and the stream cursor advances by at most 5000 per attempted slot, only
slots up to the first failed one being attempted. -/
theorem dailySlots_state
    {mains sides drinks : List MenuItem} {minC maxC : Int}
    {rng : Nat → Nat × Nat × Nat} {useDay1 : Bool} {k : Nat}
    (hm : mains ≠ []) (hs : sides ≠ []) (hd : drinks ≠ [])
    {used : List String} {st : GenState} {n : Nat} :
    (dailySlots mains sides drinks minC maxC rng useDay1 k used st n).2.sigMap =
      (((dailySlots mains sides drinks minC maxC rng useDay1 k used st n).1.map
        (fun c => (comboSigOf c, k))).reverse) ++ st.sigMap ∧
    (dailySlots mains sides drinks minC maxC rng useDay1 k used st n).2.globalComboCounter =
      st.globalComboCounter +
        (dailySlots mains sides drinks minC maxC rng useDay1 k used st n).1.length ∧
    (dailySlots mains sides drinks minC maxC rng useDay1 k used st n).1.length ≤ n ∧
    st.rngPos ≤ (dailySlots mains sides drinks minC maxC rng useDay1 k used st n).2.rngPos ∧
    (dailySlots mains sides drinks minC maxC rng useDay1 k used st n).2.rngPos ≤
      st.rngPos +
        (min n ((dailySlots mains sides drinks minC maxC rng useDay1 k used st n).1.length + 1)) *
          5000 := by
  induction n generalizing used st with
  | zero =>
    rw [dailySlots]
    simp
  | succ n ih =>
    rw [dailySlots]
    cases hF : findCombo mains sides drinks minC maxC rng useDay1 k used st 5000 with
    | mk res rest =>
      obtain ⟨used2, st2⟩ := rest
      cases res with
      | none =>
        obtain ⟨-, e2, e3, e4, e5⟩ := findCombo_none hF
        simp only [List.map_nil, List.reverse_nil, List.nil_append, List.length_nil]
        refine ⟨by rw [e3], by rw [e4]; omega, by omega, by omega, by omega⟩
      | some c1 =>
        obtain ⟨stMid, e1, e2, e3, e4, e5, e6⟩ := findCombo_some hF
        obtain ⟨-, -, -, -, -, -, -, -, -, -, -, fID, fU, fD1, fSig, fCnt, fRng, -, -, -, -, -⟩ :=
          attemptCombo_some hm hs hd e6
        obtain ⟨i1, i2, i3, i4, i5⟩ := @ih used2 st2
        simp only [List.map_cons, List.reverse_cons, List.length_cons]
        refine ⟨?_, ?_, ?_, ?_, ?_⟩
        · rw [i1, fSig, e2, List.append_assoc]
          simp
        · rw [i2, fCnt, e3]
          omega
        · omega
        · have h10 : st2.rngPos = stMid.rngPos + 1 := fRng
          omega
        · have h10 : st2.rngPos = stMid.rngPos + 1 := fRng
          omega



theorem lookupSig_cons_self (a : String) (v : Nat) (m : List (String × Nat)) :
    lookupSig ((a, v) :: m) a = some v := by
  simp [lookupSig]

theorem lookupSig_cons_ne {a s : String} (v : Nat) (m : List (String × Nat)) (h : a ≠ s) :
    lookupSig ((a, v) :: m) s = lookupSig m s := by
  simp [lookupSig, h]

/-- Identifiers assigned during one day continue the counter sequence:
the i-th accepted combo of the day gets id `combo_<start+i+1>`. -/
theorem dailySlots_ids
    {mains sides drinks : List MenuItem} {minC maxC : Int}
    {rng : Nat → Nat × Nat × Nat} {useDay1 : Bool} {k : Nat}
    (hm : mains ≠ []) (hs : sides ≠ []) (hd : drinks ≠ [])
    {used : List String} {st : GenState} {n : Nat} :
    (dailySlots mains sides drinks minC maxC rng useDay1 k used st n).1.map Combo.comboID =
      (List.range (dailySlots mains sides drinks minC maxC rng useDay1 k used st n).1.length).map
        (fun i => "combo_" ++ toString (st.globalComboCounter + i + 1)) := by
  induction n generalizing used st with
  | zero =>
    rw [dailySlots]
    simp
  | succ n ih =>
    rw [dailySlots]
    cases hF : findCombo mains sides drinks minC maxC rng useDay1 k used st 5000 with
    | mk res rest =>
      obtain ⟨used2, st2⟩ := rest
      cases res with
      | none => simp
      | some c1 =>
        obtain ⟨stMid, e1, e2, e3, e4, e5, e6⟩ := findCombo_some hF
        obtain ⟨-, -, -, -, -, -, -, -, -, -, -, fID, fU, fD1, fSig, fCnt, fRng, -, -, -, -, -⟩ :=
          attemptCombo_some hm hs hd e6
        have IH := @ih used2 st2
        simp only [List.map_cons, List.length_cons, List.range_succ_eq_map, List.map_map]
        refine List.cons_eq_cons.mpr ⟨?_, ?_⟩
        · rw [fID, e3, Nat.add_zero]
        · rw [IH, fCnt, e3]
          refine List.map_congr_left ?_
          intro i hi
          have : st.globalComboCounter + 1 + i + 1 = st.globalComboCounter + (i + 1) + 1 := by
            omega
          simp [Function.comp, this]

/-- Within one day no accepted combo reuses a constituent name of an earlier
accepted combo, and no accepted combo uses a name from the initial used set. -/
theorem dailySlots_names
    {mains sides drinks : List MenuItem} {minC maxC : Int}
    {rng : Nat → Nat × Nat × Nat} {useDay1 : Bool} {k : Nat}
    (hm : mains ≠ []) (hs : sides ≠ []) (hd : drinks ≠ [])
    {used : List String} {st : GenState} {n : Nat} :
    List.Pairwise (fun a b => ∀ x ∈ comboNames a, x ∉ comboNames b)
      (dailySlots mains sides drinks minC maxC rng useDay1 k used st n).1 ∧
    ∀ c ∈ (dailySlots mains sides drinks minC maxC rng useDay1 k used st n).1,
      ∀ x ∈ comboNames c, x ∉ used := by
  induction n generalizing used st with
  | zero =>
    rw [dailySlots]
    simp
  | succ n ih =>
    rw [dailySlots]
    cases hF : findCombo mains sides drinks minC maxC rng useDay1 k used st 5000 with
    | mk res rest =>
      obtain ⟨used2, st2⟩ := rest
      cases res with
      | none => simp
      | some c1 =>
        obtain ⟨stMid, e1, e2, e3, e4, e5, e6⟩ := findCombo_some hF
        obtain ⟨-, -, -, -, -, -, -, -, -, -, -, fID, fU, fD1, fSig, fCnt, fRng,
          g1, g2, g3, -, -⟩ := attemptCombo_some hm hs hd e6
        obtain ⟨IHp, IHa⟩ := @ih used2 st2
        have hsub : ∀ x ∈ comboNames c1, x ∈ used2 := by
          intro x hx
          simp only [comboNames, List.mem_cons, List.not_mem_nil, or_false] at hx
          rw [fU]
          rcases hx with rfl | rfl | rfl
          · simp
          · simp
          · simp
        have husedsub : ∀ x ∈ used, x ∈ used2 := by
          intro x hx
          rw [fU]
          simp [hx]
        constructor
        · refine List.pairwise_cons.mpr ⟨?_, IHp⟩
          intro b hb x hx hxb
          exact IHa b hb x hxb (hsub x hx)
        · intro c hc x hx
          rcases List.mem_cons.mp hc with rfl | hc2
          · simp only [comboNames, List.mem_cons, List.not_mem_nil, or_false] at hx
            rcases hx with rfl | rfl | rfl
            · exact g1
            · exact g2
            · exact g3
          · intro hxu
            exact IHa c hc2 x hx (husedsub x hxu)



/-- Signatures accepted during one day are pairwise distinct, and each one
was at least 3 days away from its last occurrence in the incoming map. -/
theorem dailySlots_sig
    {mains sides drinks : List MenuItem} {minC maxC : Int}
    {rng : Nat → Nat × Nat × Nat} {useDay1 : Bool} {k : Nat}
    (hm : mains ≠ []) (hs : sides ≠ []) (hd : drinks ≠ [])
    {used : List String} {st : GenState} {n : Nat} :
    List.Pairwise (fun a b => comboSigOf a ≠ comboSigOf b)
      (dailySlots mains sides drinks minC maxC rng useDay1 k used st n).1 ∧
    ∀ c ∈ (dailySlots mains sides drinks minC maxC rng useDay1 k used st n).1,
      ∀ lastDay, lookupSig st.sigMap (comboSigOf c) = some lastDay →
        (3 : Int) ≤ (k : Int) - (lastDay : Int) := by
  induction n generalizing used st with
  | zero =>
    rw [dailySlots]
    simp
  | succ n ih =>
    rw [dailySlots]
    cases hF : findCombo mains sides drinks minC maxC rng useDay1 k used st 5000 with
    | mk res rest =>
      obtain ⟨used2, st2⟩ := rest
      cases res with
      | none => simp
      | some c1 =>
        obtain ⟨stMid, e1, e2, e3, e4, e5, e6⟩ := findCombo_some hF
        obtain ⟨-, -, -, -, -, -, -, -, -, -, -, fID, fU, fD1, fSig, fCnt, fRng,
          -, -, -, fLook, -⟩ := attemptCombo_some hm hs hd e6
        obtain ⟨IHp, IHg⟩ := @ih used2 st2
        have hst2map : st2.sigMap = (comboSigOf c1, k) :: st.sigMap := by
          rw [fSig, e2]
        have hne : ∀ c ∈ (dailySlots mains sides drinks minC maxC rng useDay1 k used2 st2 n).1,
            comboSigOf c ≠ comboSigOf c1 := by
          intro c hc heq
          have hl : lookupSig st2.sigMap (comboSigOf c) = some k := by
            rw [hst2map, heq]
            exact lookupSig_cons_self _ _ _
          have := IHg c hc k hl
          omega
        constructor
        · refine List.pairwise_cons.mpr ⟨?_, IHp⟩
          intro b hb
          exact (hne b hb).symm
        · intro c hc lastDay hld
          rcases List.mem_cons.mp hc with rfl | hc2
          · refine fLook lastDay ?_
            rw [e2]
            exact hld
          · refine IHg c hc2 lastDay ?_
            rw [hst2map, lookupSig_cons_ne _ _ ?_]
            · exact hld
            · exact fun h => hne c hc2 h.symm

/-! ## Lemmas about the day wrapper and the signature map -/

/-- The degenerate day: an empty role pool yields no combos and leaves the
state untouched (src/main.go:140-143). -/
theorem generateDailyCombos_eq_empty
    {cm : String → List MenuItem} {n : Nat} {minC maxC : Int}
    {rng : Nat → Nat × Nat × Nat} {u : Bool} {k : Nat} {st : GenState}
    (h : cm "main" = [] ∨ cm "side" = [] ∨ cm "drink" = []) :
    generateDailyCombos cm n minC maxC rng u k st = ([], st) := by
  rw [generateDailyCombos]
  rw [if_pos]
  rcases h with h | h | h <;> simp [h]

/-- With all three pools inhabited the day is the slot loop started from an
empty current-day used set. -/
theorem generateDailyCombos_eq_slots
    {cm : String → List MenuItem} {n : Nat} {minC maxC : Int}
    {rng : Nat → Nat × Nat × Nat} {u : Bool} {k : Nat} {st : GenState}
    (h1 : cm "main" ≠ []) (h2 : cm "side" ≠ []) (h3 : cm "drink" ≠ []) :
    generateDailyCombos cm n minC maxC rng u k st =
      dailySlots (cm "main") (cm "side") (cm "drink") minC maxC rng u k [] st n := by
  rw [generateDailyCombos]
  rw [if_neg]
  simp [h1, h2, h3]

theorem lookupSig_mem {m : List (String × Nat)} {s : String} {v : Nat}
    (h : lookupSig m s = some v) : (s, v) ∈ m := by
  induction m with
  | nil => cases h
  | cons p rest ih =>
    obtain ⟨a, b⟩ := p
    rw [lookupSig] at h
    by_cases has : a = s
    · rw [if_pos has] at h
      cases h
      subst has
      exact List.mem_cons_self _ _
    · rw [if_neg has] at h
      exact List.mem_cons_of_mem _ (ih h)

theorem lookupSig_append_left {front back : List (String × Nat)} {s : String} {v : Nat}
    (hval : ∀ p ∈ front, p.2 = v) (hkey : s ∈ front.map Prod.fst) :
    lookupSig (front ++ back) s = some v := by
  induction front with
  | nil => cases hkey
  | cons p rest ih =>
    obtain ⟨a, b⟩ := p
    rw [List.cons_append, lookupSig]
    by_cases has : a = s
    · rw [if_pos has]
      have := hval (a, b) (List.mem_cons_self _ _)
      simp at this
      rw [this]
    · rw [if_neg has]
      refine ih (fun q hq => hval q (List.mem_cons_of_mem _ hq)) ?_
      simp only [List.map_cons, List.mem_cons] at hkey
      rcases hkey with h | h
      · exact absurd h.symm has
      · simpa using h

theorem lookupSig_append_right {front back : List (String × Nat)} {s : String}
    (hkey : s ∉ front.map Prod.fst) :
    lookupSig (front ++ back) s = lookupSig back s := by
  induction front with
  | nil => rfl
  | cons p rest ih =>
    obtain ⟨a, b⟩ := p
    rw [List.cons_append, lookupSig]
    simp only [List.map_cons, List.mem_cons] at hkey
    push_neg at hkey
    rw [if_neg (fun hh => hkey.1 hh.symm)]
    exact ih hkey.2

/-- Two members of a list whose signatures are pairwise distinct and that
share a signature are the same element. -/
theorem pairwise_sig_eq {l : List Combo}
    (hp : List.Pairwise (fun a b => comboSigOf a ≠ comboSigOf b) l)
    {ci cj : Combo} (hi : ci ∈ l) (hj : cj ∈ l)
    (hsig : comboSigOf ci = comboSigOf cj) : ci = cj := by
  induction l with
  | nil => cases hi
  | cons a rest ih =>
    obtain ⟨ha, hrest⟩ := List.pairwise_cons.mp hp
    rcases List.mem_cons.mp hi with rfl | hi2
    · rcases List.mem_cons.mp hj with rfl | hj2
      · rfl
      · exact absurd hsig (ha cj hj2)
    · rcases List.mem_cons.mp hj with rfl | hj2
      · exact absurd hsig.symm (ha ci hi2)
      · exact ih hrest hi2 hj2

/-- The identifier strings `combo_<c+1>, …, combo_<c+n>`. -/
def idsFrom (c n : Nat) : List String :=
  (List.range n).map (fun i => "combo_" ++ toString (c + i + 1))

theorem idsFrom_zero (c : Nat) : idsFrom c 0 = [] := rfl

/-- One day of generation: every accepted combo is assembled from one item of
each role pool and passed `isValidCombo` with tolerance 0.15. -/
theorem generateDailyCombos_shape
    {cm : String → List MenuItem} {n : Nat} {minC maxC : Int}
    {rng : Nat → Nat × Nat × Nat} {u : Bool} {k : Nat} {st : GenState} {c : Combo}
    (hc : c ∈ (generateDailyCombos cm n minC maxC rng u k st).1) :
    ∃ m ∈ cm "main", ∃ s ∈ cm "side", ∃ d ∈ cm "drink",
      c.main = m.itemName ∧ c.side = s.itemName ∧ c.drink = d.itemName ∧
      isValidCombo m s d minC maxC (15 / 100 : ℚ) = true ∧
      c.calorieCount = m.calories + s.calories + d.calories := by
  by_cases hall : cm "main" = [] ∨ cm "side" = [] ∨ cm "drink" = []
  · rw [generateDailyCombos_eq_empty hall] at hc
    cases hc
  · push_neg at hall
    obtain ⟨h1, h2, h3⟩ := hall
    rw [generateDailyCombos_eq_slots h1 h2 h3] at hc
    exact dailySlots_shape h1 h2 h3 hc

/-- One day of generation: the signature map gains one binding per accepted
combo, the counter advances once per accepted combo, and at most `n` combos
are produced. -/
theorem generateDailyCombos_state
    {cm : String → List MenuItem} {n : Nat} {minC maxC : Int}
    {rng : Nat → Nat × Nat × Nat} {u : Bool} {k : Nat} {st : GenState} :
    (generateDailyCombos cm n minC maxC rng u k st).2.sigMap =
      (((generateDailyCombos cm n minC maxC rng u k st).1.map
        (fun c => (comboSigOf c, k))).reverse) ++ st.sigMap ∧
    (generateDailyCombos cm n minC maxC rng u k st).2.globalComboCounter =
      st.globalComboCounter + (generateDailyCombos cm n minC maxC rng u k st).1.length ∧
    (generateDailyCombos cm n minC maxC rng u k st).1.length ≤ n := by
  by_cases hall : cm "main" = [] ∨ cm "side" = [] ∨ cm "drink" = []
  · rw [generateDailyCombos_eq_empty hall]
    simp
  · push_neg at hall
    obtain ⟨h1, h2, h3⟩ := hall
    rw [generateDailyCombos_eq_slots h1 h2 h3]
    obtain ⟨i1, i2, i3, -, -⟩ := dailySlots_state h1 h2 h3
    exact ⟨i1, i2, i3⟩

/-- One day of generation: identifiers continue the counter sequence. -/
theorem generateDailyCombos_ids
    {cm : String → List MenuItem} {n : Nat} {minC maxC : Int}
    {rng : Nat → Nat × Nat × Nat} {u : Bool} {k : Nat} {st : GenState} :
    (generateDailyCombos cm n minC maxC rng u k st).1.map Combo.comboID =
      idsFrom st.globalComboCounter
        (generateDailyCombos cm n minC maxC rng u k st).1.length := by
  by_cases hall : cm "main" = [] ∨ cm "side" = [] ∨ cm "drink" = []
  · rw [generateDailyCombos_eq_empty hall]
    simp [idsFrom]
  · push_neg at hall
    obtain ⟨h1, h2, h3⟩ := hall
    rw [generateDailyCombos_eq_slots h1 h2 h3]
    exact dailySlots_ids h1 h2 h3

/-- One day of generation: accepted combos use pairwise disjoint item names. -/
theorem generateDailyCombos_names
    {cm : String → List MenuItem} {n : Nat} {minC maxC : Int}
    {rng : Nat → Nat × Nat × Nat} {u : Bool} {k : Nat} {st : GenState} :
    List.Pairwise (fun a b => ∀ x ∈ comboNames a, x ∉ comboNames b)
      (generateDailyCombos cm n minC maxC rng u k st).1 := by
  by_cases hall : cm "main" = [] ∨ cm "side" = [] ∨ cm "drink" = []
  · rw [generateDailyCombos_eq_empty hall]
    simp
  · push_neg at hall
    obtain ⟨h1, h2, h3⟩ := hall
    rw [generateDailyCombos_eq_slots h1 h2 h3]
    exact (dailySlots_names h1 h2 h3).1

/-- One day of generation: accepted signatures are pairwise distinct and each
was at least 3 days away from its binding in the incoming map. -/
theorem generateDailyCombos_sig
    {cm : String → List MenuItem} {n : Nat} {minC maxC : Int}
    {rng : Nat → Nat × Nat × Nat} {u : Bool} {k : Nat} {st : GenState} :
    List.Pairwise (fun a b => comboSigOf a ≠ comboSigOf b)
      (generateDailyCombos cm n minC maxC rng u k st).1 ∧
    ∀ c ∈ (generateDailyCombos cm n minC maxC rng u k st).1,
      ∀ lastDay, lookupSig st.sigMap (comboSigOf c) = some lastDay →
        (3 : Int) ≤ (k : Int) - (lastDay : Int) := by
  by_cases hall : cm "main" = [] ∨ cm "side" = [] ∨ cm "drink" = []
  · rw [generateDailyCombos_eq_empty hall]
    simp
  · push_neg at hall
    obtain ⟨h1, h2, h3⟩ := hall
    rw [generateDailyCombos_eq_slots h1 h2 h3]
    exact dailySlots_sig h1 h2 h3

/-! ## Lemmas about the week loop -/

/-- The week loop succeeds whenever the last requested day index has a
calendar label, and then produces exactly one `DailyMenu` per day index, in
order, labelled by `dayNames`. -/
theorem weekLoop_some
    {cm : String → List MenuItem} {slots : Nat} {minC maxC : Int}
    {rng : Nat → Nat × Nat × Nat} {k nd : Nat} {st : GenState}
    (h : k + nd ≤ dayNames.length) :
    ∃ days st2, weekLoop cm slots minC maxC rng k nd st = some (days, st2) ∧
      days.length = nd ∧
      ∀ i, i < nd → (days.getD i default).day = dayNames.getD (k + i) "" := by
  induction nd generalizing k st with
  | zero =>
    exact ⟨[], st, rfl, rfl, fun i hi => absurd hi (by omega)⟩
  | succ nd ih =>
    have hk : k < dayNames.length := by omega
    have hname : dayNames.get? k = some (dayNames.get ⟨k, hk⟩) := List.get?_eq_get hk
    obtain ⟨rest, stf, hrest, hlen, hdays⟩ :=
      @ih (k + 1) (generateDailyCombos cm slots minC maxC rng (k == 0) k st).2 (by omega)
    refine ⟨{ day := dayNames.get ⟨k, hk⟩,
              combos := (generateDailyCombos cm slots minC maxC rng (k == 0) k st).1 } :: rest,
      stf, ?_, by simp [hlen], ?_⟩
    · rw [weekLoop, hname]
      dsimp only
      rw [hrest]
    · intro i hi
      cases i with
      | zero =>
        simp only [List.getD_cons_zero, Nat.add_zero]
        rw [List.getD_eq_getElem _ _ hk]
        simp [List.get_eq_getElem]
      | succ i =>
        simp only [List.getD_cons_succ]
        have := hdays i (by omega)
        rw [show k + (i + 1) = k + 1 + i by omega]
        exact this



/-- Every combo of every day of a successful week run is assembled from the
three role pools and passed the validity check. -/
theorem weekLoop_shape
    {cm : String → List MenuItem} {slots : Nat} {minC maxC : Int}
    {rng : Nat → Nat × Nat × Nat} {k nd : Nat} {st : GenState}
    {days : List DailyMenu} {st2 : GenState}
    (h : weekLoop cm slots minC maxC rng k nd st = some (days, st2))
    {dm : DailyMenu} (hdm : dm ∈ days) {c : Combo} (hc : c ∈ dm.combos) :
    ∃ m ∈ cm "main", ∃ s ∈ cm "side", ∃ d ∈ cm "drink",
      c.main = m.itemName ∧ c.side = s.itemName ∧ c.drink = d.itemName ∧
      isValidCombo m s d minC maxC (15 / 100 : ℚ) = true ∧
      c.calorieCount = m.calories + s.calories + d.calories := by
  induction nd generalizing k st days st2 with
  | zero =>
    rw [weekLoop] at h
    rw [Option.some_inj, Prod.mk.injEq] at h
    obtain ⟨h1, -⟩ := h
    subst h1
    cases hdm
  | succ nd ih =>
    rw [weekLoop] at h
    cases hname : dayNames.get? k with
    | none =>
      rw [hname] at h
      cases h
    | some name =>
      rw [hname] at h
      dsimp only at h
      cases hrest : weekLoop cm slots minC maxC rng (k + 1) nd
          (generateDailyCombos cm slots minC maxC rng (k == 0) k st).2 with
      | none =>
        rw [hrest] at h
        cases h
      | some r =>
        obtain ⟨rest, stf⟩ := r
        rw [hrest] at h
        rw [Option.some_inj, Prod.mk.injEq] at h
        obtain ⟨h1, h2⟩ := h
        subst h1
        subst h2
        rcases List.mem_cons.mp hdm with rfl | hdm2
        · exact generateDailyCombos_shape hc
        · exact ih hrest hdm2

/-- Within every day of a successful week run, accepted combos use pairwise
disjoint constituent names. -/
theorem weekLoop_names
    {cm : String → List MenuItem} {slots : Nat} {minC maxC : Int}
    {rng : Nat → Nat × Nat × Nat} {k nd : Nat} {st : GenState}
    {days : List DailyMenu} {st2 : GenState}
    (h : weekLoop cm slots minC maxC rng k nd st = some (days, st2))
    {dm : DailyMenu} (hdm : dm ∈ days) :
    List.Pairwise (fun a b => ∀ x ∈ comboNames a, x ∉ comboNames b) dm.combos := by
  induction nd generalizing k st days st2 with
  | zero =>
    rw [weekLoop] at h
    rw [Option.some_inj, Prod.mk.injEq] at h
    obtain ⟨h1, -⟩ := h
    subst h1
    cases hdm
  | succ nd ih =>
    rw [weekLoop] at h
    cases hname : dayNames.get? k with
    | none =>
      rw [hname] at h
      cases h
    | some name =>
      rw [hname] at h
      dsimp only at h
      cases hrest : weekLoop cm slots minC maxC rng (k + 1) nd
          (generateDailyCombos cm slots minC maxC rng (k == 0) k st).2 with
      | none =>
        rw [hrest] at h
        cases h
      | some r =>
        obtain ⟨rest, stf⟩ := r
        rw [hrest] at h
        rw [Option.some_inj, Prod.mk.injEq] at h
        obtain ⟨h1, h2⟩ := h
        subst h1
        subst h2
        rcases List.mem_cons.mp hdm with rfl | hdm2
        · exact generateDailyCombos_names
        · exact ih hrest hdm2



theorem idsFrom_append (c a b : Nat) :
    idsFrom c a ++ idsFrom (c + a) b = idsFrom c (a + b) := by
  rw [idsFrom, idsFrom, idsFrom, List.range_add, List.map_append, List.map_map]
  congr 1
  refine List.map_congr_left ?_
  intro i hi
  simp only [Function.comp_apply]
  have : c + (a + i) + 1 = c + a + i + 1 := by omega
  rw [this]

/-- Across a successful week run the identifier counter advances once per
accepted combo and the identifiers, in acceptance order, continue the counter
sequence `combo_<start+1>, combo_<start+2>, …`. -/
theorem weekLoop_ids
    {cm : String → List MenuItem} {slots : Nat} {minC maxC : Int}
    {rng : Nat → Nat × Nat × Nat} {k nd : Nat} {st : GenState}
    {days : List DailyMenu} {st2 : GenState}
    (h : weekLoop cm slots minC maxC rng k nd st = some (days, st2)) :
    st2.globalComboCounter = st.globalComboCounter + (planCombos days).length ∧
    (planCombos days).map Combo.comboID =
      idsFrom st.globalComboCounter (planCombos days).length := by
  induction nd generalizing k st days st2 with
  | zero =>
    rw [weekLoop] at h
    rw [Option.some_inj, Prod.mk.injEq] at h
    obtain ⟨h1, h2⟩ := h
    subst h1
    subst h2
    simp [planCombos, idsFrom]
  | succ nd ih =>
    rw [weekLoop] at h
    cases hname : dayNames.get? k with
    | none =>
      rw [hname] at h
      cases h
    | some name =>
      rw [hname] at h
      dsimp only at h
      cases hrest : weekLoop cm slots minC maxC rng (k + 1) nd
          (generateDailyCombos cm slots minC maxC rng (k == 0) k st).2 with
      | none =>
        rw [hrest] at h
        cases h
      | some r =>
        obtain ⟨rest, stf⟩ := r
        rw [hrest] at h
        rw [Option.some_inj, Prod.mk.injEq] at h
        obtain ⟨h1, h2⟩ := h
        subst h1
        subst h2
        obtain ⟨-, hcnt, -⟩ :=
          @generateDailyCombos_state cm slots minC maxC rng (k == 0) k st
        obtain ⟨i1, i2⟩ := ih hrest
        have hplan : planCombos
            ({ day := name,
               combos := (generateDailyCombos cm slots minC maxC rng (k == 0) k st).1 } :: rest) =
            (generateDailyCombos cm slots minC maxC rng (k == 0) k st).1 ++ planCombos rest := by
          simp [planCombos]
        rw [hplan]
        constructor
        · rw [i1, hcnt, List.length_append]
          omega
        · rw [List.map_append, i2, hcnt,
            @generateDailyCombos_ids cm slots minC maxC rng (k == 0) k st,
            List.length_append]
          exact idsFrom_append _ _ _



/-- Generating one day keeps every signature-map value below the next day
index. -/
theorem sigMap_values_lt_next
    {cm : String → List MenuItem} {slots : Nat} {minC maxC : Int}
    {rng : Nat → Nat × Nat × Nat} {u : Bool} {k : Nat} {st : GenState}
    (hmap : ∀ p ∈ st.sigMap, p.2 < k) :
    ∀ p ∈ (generateDailyCombos cm slots minC maxC rng u k st).2.sigMap, p.2 < k + 1 := by
  intro p hp
  obtain ⟨hsig, -, -⟩ := @generateDailyCombos_state cm slots minC maxC rng u k st
  rw [hsig] at hp
  rcases List.mem_append.mp hp with hp1 | hp2
  · rw [List.mem_reverse] at hp1
    obtain ⟨c, -, rfl⟩ := List.mem_map.mp hp1
    exact Nat.lt_succ_self k
  · exact Nat.lt_succ_of_lt (hmap p hp2)

/-- A combo accepted on relative day `i` of a successful week run whose
signature was bound to `ld` in the incoming map was at least 3 days away
from `ld`. -/
theorem weekLoop_guard
    {cm : String → List MenuItem} {slots : Nat} {minC maxC : Int}
    {rng : Nat → Nat × Nat × Nat} {k nd : Nat} {st : GenState}
    {days : List DailyMenu} {st2 : GenState}
    (h : weekLoop cm slots minC maxC rng k nd st = some (days, st2))
    (hmap : ∀ p ∈ st.sigMap, p.2 < k) :
    ∀ i, i < days.length → ∀ c ∈ (days.getD i default).combos,
      ∀ ld, lookupSig st.sigMap (comboSigOf c) = some ld →
        (3 : Int) ≤ ((k + i : Nat) : Int) - (ld : Int) := by
  induction nd generalizing k st days st2 with
  | zero =>
    rw [weekLoop] at h
    rw [Option.some_inj, Prod.mk.injEq] at h
    obtain ⟨h1, -⟩ := h
    subst h1
    intro i hi
    exact absurd hi (by simp)
  | succ nd ih =>
    rw [weekLoop] at h
    cases hname : dayNames.get? k with
    | none =>
      rw [hname] at h
      cases h
    | some name =>
      rw [hname] at h
      dsimp only at h
      cases hrest : weekLoop cm slots minC maxC rng (k + 1) nd
          (generateDailyCombos cm slots minC maxC rng (k == 0) k st).2 with
      | none =>
        rw [hrest] at h
        cases h
      | some r =>
        obtain ⟨rest, stf⟩ := r
        rw [hrest] at h
        rw [Option.some_inj, Prod.mk.injEq] at h
        obtain ⟨h1, h2⟩ := h
        subst h1
        subst h2
        intro i hi c hc ld hld
        cases i with
        | zero =>
          simp only [List.getD_cons_zero] at hc
          have h3 := (@generateDailyCombos_sig cm slots minC maxC rng (k == 0) k st).2
            c hc ld hld
          have : ((k + 0 : Nat) : Int) = (k : Int) := by norm_num
          rw [this]
          exact h3
        | succ i =>
          simp only [List.getD_cons_succ] at hc
          have hld_lt : ld < k := hmap _ (lookupSig_mem hld)
          have hmap2 := @sigMap_values_lt_next cm slots minC maxC rng (k == 0) k st hmap
          have hih := ih hrest hmap2 i (by simpa using Nat.lt_of_succ_lt_succ hi) c hc
          by_cases hkey : comboSigOf c ∈
              (((generateDailyCombos cm slots minC maxC rng (k == 0) k st).1.map
                (fun c0 => (comboSigOf c0, k))).reverse).map Prod.fst
          · have hlk : lookupSig
                (generateDailyCombos cm slots minC maxC rng (k == 0) k st).2.sigMap
                (comboSigOf c) = some k := by
              rw [(@generateDailyCombos_state cm slots minC maxC rng (k == 0) k st).1]
              refine lookupSig_append_left ?_ hkey
              intro p hp
              rw [List.mem_reverse] at hp
              obtain ⟨c0, -, rfl⟩ := List.mem_map.mp hp
              rfl
            have h3 := hih k hlk
            have hcast1 : ((k + 1 + i : Nat) : Int) = (k : Int) + 1 + i := by push_cast; ring
            have hcast2 : ((k + (i + 1) : Nat) : Int) = (k : Int) + i + 1 := by push_cast; ring
            rw [hcast1] at h3
            rw [hcast2]
            omega
          · have hlk : lookupSig
                (generateDailyCombos cm slots minC maxC rng (k == 0) k st).2.sigMap
                (comboSigOf c) = some ld := by
              rw [(@generateDailyCombos_state cm slots minC maxC rng (k == 0) k st).1]
              rw [lookupSig_append_right hkey]
              exact hld
            have h3 := hih ld hlk
            have hcast1 : ((k + 1 + i : Nat) : Int) = (k : Int) + 1 + i := by push_cast; ring
            have hcast2 : ((k + (i + 1) : Nat) : Int) = (k : Int) + i + 1 := by push_cast; ring
            rw [hcast1] at h3
            rw [hcast2]
            omega



/-- Two combos of a successful week run that share a combo signature either
are the same accepted combo or live at least 3 day indices apart. -/
theorem weekLoop_sigsep
    {cm : String → List MenuItem} {slots : Nat} {minC maxC : Int}
    {rng : Nat → Nat × Nat × Nat} {k nd : Nat} {st : GenState}
    {days : List DailyMenu} {st2 : GenState}
    (h : weekLoop cm slots minC maxC rng k nd st = some (days, st2))
    (hmap : ∀ p ∈ st.sigMap, p.2 < k) :
    ∀ i j, i < days.length → j < days.length → i ≤ j →
      ∀ ci ∈ (days.getD i default).combos, ∀ cj ∈ (days.getD j default).combos,
        comboSigOf ci = comboSigOf cj → (i = j ∧ ci = cj) ∨ i + 3 ≤ j := by
  induction nd generalizing k st days st2 with
  | zero =>
    rw [weekLoop] at h
    rw [Option.some_inj, Prod.mk.injEq] at h
    obtain ⟨h1, -⟩ := h
    subst h1
    intro i j hi
    exact absurd hi (by simp)
  | succ nd ih =>
    rw [weekLoop] at h
    cases hname : dayNames.get? k with
    | none =>
      rw [hname] at h
      cases h
    | some name =>
      rw [hname] at h
      dsimp only at h
      cases hrest : weekLoop cm slots minC maxC rng (k + 1) nd
          (generateDailyCombos cm slots minC maxC rng (k == 0) k st).2 with
      | none =>
        rw [hrest] at h
        cases h
      | some r =>
        obtain ⟨rest, stf⟩ := r
        rw [hrest] at h
        rw [Option.some_inj, Prod.mk.injEq] at h
        obtain ⟨h1, h2⟩ := h
        subst h1
        subst h2
        have hmap2 := @sigMap_values_lt_next cm slots minC maxC rng (k == 0) k st hmap
        intro i j hi hj hij ci hci cj hcj hsig
        cases i with
        | zero =>
          cases j with
          | zero =>
            simp only [List.getD_cons_zero] at hci hcj
            exact Or.inl ⟨rfl,
              pairwise_sig_eq (@generateDailyCombos_sig cm slots minC maxC rng
                (k == 0) k st).1 hci hcj hsig⟩
          | succ j =>
            simp only [List.getD_cons_zero] at hci
            simp only [List.getD_cons_succ] at hcj
            have hkey : comboSigOf cj ∈
                (((generateDailyCombos cm slots minC maxC rng (k == 0) k st).1.map
                  (fun c0 => (comboSigOf c0, k))).reverse).map Prod.fst := by
              rw [← hsig]
              refine List.mem_map.mpr ⟨(comboSigOf ci, k), ?_, rfl⟩
              rw [List.mem_reverse]
              exact List.mem_map.mpr ⟨ci, hci, rfl⟩
            have hlk : lookupSig
                (generateDailyCombos cm slots minC maxC rng (k == 0) k st).2.sigMap
                (comboSigOf cj) = some k := by
              rw [(@generateDailyCombos_state cm slots minC maxC rng (k == 0) k st).1]
              refine lookupSig_append_left ?_ hkey
              intro p hp
              rw [List.mem_reverse] at hp
              obtain ⟨c0, -, rfl⟩ := List.mem_map.mp hp
              rfl
            have h3 := weekLoop_guard hrest hmap2 j (by simpa using Nat.lt_of_succ_lt_succ hj)
              cj hcj k hlk
            have hcast : ((k + 1 + j : Nat) : Int) = (k : Int) + 1 + j := by push_cast; ring
            rw [hcast] at h3
            right
            omega
        | succ i =>
          cases j with
          | zero => omega
          | succ j =>
            simp only [List.getD_cons_succ] at hci hcj
            have hih := ih hrest hmap2 i j (by simpa using Nat.lt_of_succ_lt_succ hi)
              (by simpa using Nat.lt_of_succ_lt_succ hj) (by omega) ci hci cj hcj hsig
            rcases hih with ⟨rfl, rfl⟩ | hlt
            · exact Or.inl ⟨rfl, rfl⟩
            · right
              omega

/-! ## Injectivity of the decimal identifier rendering -/

/-- The decimal digit characters of a natural number, most significant
first; agrees with the rendering used by `Nat.repr`. -/
def decDigits (n : Nat) : List Char :=
  if n < 10 then [Nat.digitChar n]
  else decDigits (n / 10) ++ [Nat.digitChar (n % 10)]
termination_by n
decreasing_by
  exact Nat.div_lt_self (by omega) (by omega)

theorem toDigitsCore_eq_decDigits :
    ∀ (fuel n : Nat) (acc : List Char), n < fuel →
      Nat.toDigitsCore 10 fuel n acc = decDigits n ++ acc := by
  intro fuel
  induction fuel with
  | zero =>
    intro n acc h
    exact absurd h (by omega)
  | succ fuel ih =>
    intro n acc h
    rw [Nat.toDigitsCore]
    by_cases h10 : n / 10 = 0
    · have hn : n < 10 := by omega
      have hmod : n % 10 = n := Nat.mod_eq_of_lt hn
      simp only [h10, if_true, hmod]
      rw [decDigits, if_pos hn]
      rfl
    · have hn : ¬ n < 10 := by omega
      simp only [h10, if_false]
      rw [ih (n / 10) _ (by omega)]
      conv_rhs => rw [decDigits, if_neg hn]
      rw [List.append_assoc]
      rfl

/-- Numeric value of a decimal digit character. -/
def digitVal (c : Char) : Nat := c.toNat - 48

/-- Value of a most-significant-first decimal digit string. -/
def digitsVal (l : List Char) : Nat := l.foldl (fun a c => 10 * a + digitVal c) 0

theorem digitVal_digitChar {n : Nat} (h : n < 10) : digitVal (Nat.digitChar n) = n := by
  interval_cases n <;> rfl

theorem digitsVal_decDigits (n : Nat) : digitsVal (decDigits n) = n := by
  induction n using Nat.strong_induction_on with
  | _ n ih =>
    by_cases h : n < 10
    · rw [decDigits, if_pos h]
      simp [digitsVal, digitVal_digitChar h]
    · rw [decDigits, if_neg h]
      have h10 : (0 : Nat) < 10 := by omega
      have ihv := ih (n / 10) (Nat.div_lt_self (by omega) (by omega))
      rw [digitsVal, List.foldl_append]
      rw [digitsVal] at ihv
      rw [ihv]
      simp only [List.foldl_cons, List.foldl_nil]
      rw [digitVal_digitChar (Nat.mod_lt n h10)]
      omega

theorem decDigits_injective {m n : Nat} (h : decDigits m = decDigits n) : m = n := by
  have h2 := congrArg digitsVal h
  rwa [digitsVal_decDigits, digitsVal_decDigits] at h2

theorem natRepr_data (n : Nat) : (Nat.repr n).data = decDigits n := by
  rw [Nat.repr, Nat.toDigits, toDigitsCore_eq_decDigits _ _ _ (Nat.lt_succ_self n),
    List.append_nil]
  rfl

/-- The identifier formatter `combo_<d>` is injective in the counter value. -/
theorem comboId_injective {m n : Nat}
    (h : "combo_" ++ Nat.repr m = "combo_" ++ Nat.repr n) : m = n := by
  have h2 := congrArg String.data h
  simp only [String.data_append] at h2
  refine decDigits_injective ?_
  rw [← natRepr_data, ← natRepr_data]
  exact List.append_cancel_left h2

theorem idsFrom_nodup (c n : Nat) : (idsFrom c n).Nodup := by
  rw [idsFrom]
  refine List.Nodup.map ?_ (List.nodup_range n)
  intro i j hij
  have : c + i + 1 = c + j + 1 := comboId_injective hij
  omega

/-- What passing `isValidCombo` means: the calorie band holds and the
popularity spread is within the tolerance. -/
theorem isValidCombo_true {m s d : MenuItem} {minC maxC : Int} {tol : ℚ}
    (h : isValidCombo m s d minC maxC tol = true) :
    minC ≤ m.calories + s.calories + d.calories ∧
    m.calories + s.calories + d.calories ≤ maxC ∧
    max m.popularityScore (max s.popularityScore d.popularityScore) -
      min m.popularityScore (min s.popularityScore d.popularityScore) ≤ tol := by
  rw [isValidCombo] at h
  by_cases h1 : (calculateComboMetrics m s d).1 ≥ minC ∧ (calculateComboMetrics m s d).1 ≤ maxC
  · rw [if_neg (not_not_intro h1)] at h
    by_cases h2 : ([m.popularityScore, s.popularityScore, d.popularityScore].length > 1) ∧
        max m.popularityScore (max s.popularityScore d.popularityScore) -
          min m.popularityScore (min s.popularityScore d.popularityScore) > tol
    · rw [if_pos h2] at h
      cases h
    · have hspread : ¬ (max m.popularityScore (max s.popularityScore d.popularityScore) -
          min m.popularityScore (min s.popularityScore d.popularityScore) > tol) := by
        intro hgt
        exact h2 ⟨by simp, hgt⟩
      exact ⟨h1.1, h1.2, le_of_not_lt hspread⟩
  · rw [if_pos h1] at h
    cases h

/-- A day that falls short of its requested slot count spent the full
5000-attempt budget on the failing slot, on top of at least one draw per
accepted combo. -/
theorem dailySlots_shortfall
    {mains sides drinks : List MenuItem} {minC maxC : Int}
    {rng : Nat → Nat × Nat × Nat} {useDay1 : Bool} {k : Nat}
    (hm : mains ≠ []) (hs : sides ≠ []) (hd : drinks ≠ [])
    {used : List String} {st : GenState} {n : Nat}
    (hlt : (dailySlots mains sides drinks minC maxC rng useDay1 k used st n).1.length < n) :
    st.rngPos + (dailySlots mains sides drinks minC maxC rng useDay1 k used st n).1.length +
      5000 ≤ (dailySlots mains sides drinks minC maxC rng useDay1 k used st n).2.rngPos := by
  induction n generalizing used st with
  | zero => exact absurd hlt (by omega)
  | succ n ih =>
    rw [dailySlots] at hlt ⊢
    cases hF : findCombo mains sides drinks minC maxC rng useDay1 k used st 5000 with
    | mk res rest =>
      obtain ⟨used2, st2⟩ := rest
      rw [hF] at hlt
      cases res with
      | none =>
        obtain ⟨-, -, -, -, e5⟩ := findCombo_none hF
        simp only [List.length_nil]
        omega
      | some c1 =>
        obtain ⟨stMid, e1, e2, e3, e4, e5, e6⟩ := findCombo_some hF
        obtain ⟨-, -, -, -, -, -, -, -, -, -, -, -, -, -, -, -, fRng, -, -, -, -, -⟩ :=
          attemptCombo_some hm hs hd e6
        have hlt2 : (dailySlots mains sides drinks minC maxC rng useDay1 k used2 st2 n).1.length
            < n := by
          simpa using hlt
        have hih := ih hlt2
        have fRng2 : st2.rngPos = stMid.rngPos + 1 := fRng
        simp only [List.length_cons]
        omega

/-! ## Taste-profile set analysis -/

theorem dedup3_len1 {a b c : String} :
    [a, b, c].dedup.length = 1 ↔ (a = b ∧ b = c) := by
  by_cases hbc : b = c
  · subst hbc
    by_cases hab : a = b
    · subst hab
      simp [List.dedup_cons_of_mem]
    · rw [List.dedup_cons_of_not_mem (by simp [hab])]
      rw [List.dedup_cons_of_mem (by simp)]
      simp [hab]
  · have h1 : [b, c].dedup = [b, c] := by
      rw [List.dedup_cons_of_not_mem (by simp [hbc])]
      simp
    by_cases hab : a = b ∨ a = c
    · rw [List.dedup_cons_of_mem (by simpa using hab), h1]
      simp [hbc]
    · push_neg at hab
      rw [List.dedup_cons_of_not_mem (by simp [hab.1, hab.2]), h1]
      simp [hbc]

theorem mem_dedup3 {x a b c : String} :
    x ∈ [a, b, c].dedup ↔ (x = a ∨ x = b ∨ x = c) := by
  rw [List.mem_dedup]
  simp



/-- The three taste profiles of a candidate triple, in drawing order. -/
def tasteProfilesOf (m s d : MenuItem) : List String :=
  [m.tasteProfile, s.tasteProfile, d.tasteProfile]

/-! ## The claims -/

/-- A successful run is a successful week loop from the fresh state. -/
theorem generateMenuSuggestions_eq_some
    {menu : List MenuItem} {numDays slots : Nat} {minC maxC : Int}
    {rng : Nat → Nat × Nat × Nat} {plan : MenuPlan}
    (h : generateMenuSuggestions menu numDays slots minC maxC rng = some plan) :
    ∃ st2, weekLoop (categorizeMenu menu) slots minC maxC rng 0 numDays
      { rngPos := 0, day1Used := [], sigMap := [], globalComboCounter := 0 } =
        some (plan.menuPlan, st2) := by
  rw [generateMenuSuggestions] at h
  cases hW : weekLoop (categorizeMenu menu) slots minC maxC rng 0 numDays
      { rngPos := 0, day1Used := [], sigMap := [], globalComboCounter := 0 } with
  | none =>
    rw [hW] at h
    cases h
  | some r =>
    obtain ⟨days, st2⟩ := r
    rw [hW] at h
    rw [Option.some_inj] at h
    subst h
    exact ⟨st2, rfl⟩

/-- Claim C1 - every accepted combo in a generated plan is built from one
item of each role pool, its stored calorie count is the sum of the three
constituent calorie counts and lies in the inclusive band
[minCalories, maxCalories], and the spread (max minus min) of the three
constituent popularity scores is at most the 0.15 tolerance the planner
hard-codes. -/
theorem C1_accepted_combo_constraints
    {menu : List MenuItem} {numDays slots : Nat} {minC maxC : Int}
    {rng : Nat → Nat × Nat × Nat} {plan : MenuPlan}
    (h : generateMenuSuggestions menu numDays slots minC maxC rng = some plan)
    {dm : DailyMenu} (hdm : dm ∈ plan.menuPlan) {c : Combo} (hc : c ∈ dm.combos) :
    ∃ m ∈ categorizeMenu menu "main", ∃ s ∈ categorizeMenu menu "side",
      ∃ d ∈ categorizeMenu menu "drink",
      c.main = m.itemName ∧ c.side = s.itemName ∧ c.drink = d.itemName ∧
      c.calorieCount = m.calories + s.calories + d.calories ∧
      minC ≤ c.calorieCount ∧ c.calorieCount ≤ maxC ∧
      max m.popularityScore (max s.popularityScore d.popularityScore) -
        min m.popularityScore (min s.popularityScore d.popularityScore) ≤
        (15 / 100 : ℚ) := by
  obtain ⟨st2, hW⟩ := generateMenuSuggestions_eq_some h
  obtain ⟨m, hmm, s, hsm, d, hdm2, f1, f2, f3, f4, f5⟩ := weekLoop_shape hW hdm hc
  obtain ⟨v1, v2, v3⟩ := isValidCombo_true f4
  exact ⟨m, hmm, s, hsm, d, hdm2, f1, f2, f3, f5, by rw [f5]; exact v1,
    by rw [f5]; exact v2, v3⟩

/-- Claim C3 - within every single day of a generated plan, no item name
appears in more than one accepted combo of that day: the constituent name
lists of distinct combos of one day are pairwise disjoint. -/
theorem C3_daily_item_exclusivity
    {menu : List MenuItem} {numDays slots : Nat} {minC maxC : Int}
    {rng : Nat → Nat × Nat × Nat} {plan : MenuPlan}
    (h : generateMenuSuggestions menu numDays slots minC maxC rng = some plan)
    {dm : DailyMenu} (hdm : dm ∈ plan.menuPlan) :
    List.Pairwise (fun a b => ∀ x ∈ comboNames a, x ∉ comboNames b) dm.combos := by
  obtain ⟨st2, hW⟩ := generateMenuSuggestions_eq_some h
  exact weekLoop_names hW hdm

/-- Claim C4 - in acceptance order the combo identifiers of a whole plan are
exactly `combo_1, combo_2, …` (so their numeric components are strictly
increasing), and they are pairwise distinct. -/
theorem C4_identifiers_unique_increasing
    {menu : List MenuItem} {numDays slots : Nat} {minC maxC : Int}
    {rng : Nat → Nat × Nat × Nat} {plan : MenuPlan}
    (h : generateMenuSuggestions menu numDays slots minC maxC rng = some plan) :
    (planCombos plan.menuPlan).map Combo.comboID =
      idsFrom 0 (planCombos plan.menuPlan).length ∧
    ((planCombos plan.menuPlan).map Combo.comboID).Nodup := by
  obtain ⟨st2, hW⟩ := generateMenuSuggestions_eq_some h
  obtain ⟨-, hids⟩ := weekLoop_ids hW
  refine ⟨hids, ?_⟩
  rw [hids]
  exact idsFrom_nodup _ _

/-- Claim C2 - two accepted combos of one plan that carry the same combo
signature are either the same accepted combo or lie at least 3 day indices
apart; in particular a signature accepted on day `d` is never accepted again
on a day `d2` with `d2 - d < 3`. -/
theorem C2_signature_window
    {menu : List MenuItem} {numDays slots : Nat} {minC maxC : Int}
    {rng : Nat → Nat × Nat × Nat} {plan : MenuPlan}
    (h : generateMenuSuggestions menu numDays slots minC maxC rng = some plan)
    {i j : Nat} (hi : i < plan.menuPlan.length) (hj : j < plan.menuPlan.length)
    {ci cj : Combo} (hci : ci ∈ (plan.menuPlan.getD i default).combos)
    (hcj : cj ∈ (plan.menuPlan.getD j default).combos)
    (hsig : comboSigOf ci = comboSigOf cj) :
    (i = j ∧ ci = cj) ∨ i + 3 ≤ j ∨ j + 3 ≤ i := by
  obtain ⟨st2, hW⟩ := generateMenuSuggestions_eq_some h
  have hmap : ∀ p ∈ ([] : List (String × Nat)), p.2 < 0 := by
    intro p hp
    cases hp
  by_cases hij : i ≤ j
  · rcases weekLoop_sigsep hW hmap i j hi hj hij ci hci cj hcj hsig with ⟨h1, h2⟩ | h3
    · exact Or.inl ⟨h1, h2⟩
    · exact Or.inr (Or.inl h3)
  · have hji : j ≤ i := by omega
    rcases weekLoop_sigsep hW hmap j i hj hi hji cj hcj ci hci hsig.symm with ⟨h1, h2⟩ | h3
    · exact Or.inl ⟨h1.symm, h2.symm⟩
    · exact Or.inr (Or.inr h3)

/-- Claim C5 - with inhabited role pools, a day produces at most the
requested number of combos; the stream cursor moves by at most 5000 draws
per attempted slot and only the slots up to and including the first failing
one are attempted; a shortfall means the failing slot consumed its full
5000-attempt budget; and the cross-day state (signature map and identifier
counter) changes only by the accepted combos. -/
theorem C5_slot_attempt_cap
    {cm : String → List MenuItem} {slots : Nat} {minC maxC : Int}
    {rng : Nat → Nat × Nat × Nat} {u : Bool} {k : Nat} {st : GenState}
    (hm : cm "main" ≠ []) (hs : cm "side" ≠ []) (hd : cm "drink" ≠ []) :
    (generateDailyCombos cm slots minC maxC rng u k st).1.length ≤ slots ∧
    (generateDailyCombos cm slots minC maxC rng u k st).2.globalComboCounter =
      st.globalComboCounter +
        (generateDailyCombos cm slots minC maxC rng u k st).1.length ∧
    (generateDailyCombos cm slots minC maxC rng u k st).2.sigMap =
      (((generateDailyCombos cm slots minC maxC rng u k st).1.map
        (fun c => (comboSigOf c, k))).reverse) ++ st.sigMap ∧
    st.rngPos ≤ (generateDailyCombos cm slots minC maxC rng u k st).2.rngPos ∧
    (generateDailyCombos cm slots minC maxC rng u k st).2.rngPos ≤
      st.rngPos +
        (min slots
          ((generateDailyCombos cm slots minC maxC rng u k st).1.length + 1)) * 5000 ∧
    ((generateDailyCombos cm slots minC maxC rng u k st).1.length < slots →
      st.rngPos + (generateDailyCombos cm slots minC maxC rng u k st).1.length + 5000 ≤
        (generateDailyCombos cm slots minC maxC rng u k st).2.rngPos) := by
  rw [generateDailyCombos_eq_slots hm hs hd]
  obtain ⟨i1, i2, i3, i4, i5⟩ := dailySlots_state hm hs hd
  exact ⟨i3, i2, i1, i4, i5, fun hlt => dailySlots_shortfall hm hs hd hlt⟩

/-- Claim C6 - if any of the three role pools is empty, the day yields the
empty combo list and the whole generator state, in particular the shared
identifier counter, is returned unchanged. -/
theorem C6_empty_pool_empty_day
    {cm : String → List MenuItem} {slots : Nat} {minC maxC : Int}
    {rng : Nat → Nat × Nat × Nat} {u : Bool} {k : Nat} {st : GenState}
    (h : cm "main" = [] ∨ cm "side" = [] ∨ cm "drink" = []) :
    generateDailyCombos cm slots minC maxC rng u k st = ([], st) ∧
    (generateDailyCombos cm slots minC maxC rng u k st).2.globalComboCounter =
      st.globalComboCounter := by
  have he := @generateDailyCombos_eq_empty cm slots minC maxC rng u k st h
  exact ⟨he, by rw [he]⟩



/-- Claim C7 - the taste description inside the reasoning string: the fixed
sentence template embeds the taste description; with exactly one distinct
profile among the three items it reads `a <profile> profile`; otherwise the
first of spicy, sweet, savory, fresh present among the profiles is used as
`a <profile> and mixed taste profile`; with none of those four it falls back
to `a mixed taste profile`.  In particular savory, savory, fresh yields
`a savory and mixed taste profile`. -/
theorem C7_reasoning_taste_description (m s d : MenuItem) :
    (∀ totalCalories avgPopularity,
      generateReasoning m s d totalCalories avgPopularity =
        "This combo features " ++ tasteDescription m s d ++
          ", consists of popular choices (average popularity: " ++ format2 avgPopularity ++
          "), and meets the calorie target (" ++ toString totalCalories ++ " kcal).") ∧
    (m.tasteProfile = s.tasteProfile ∧ s.tasteProfile = d.tasteProfile →
      tasteDescription m s d = "a " ++ m.tasteProfile ++ " profile") ∧
    (¬ (m.tasteProfile = s.tasteProfile ∧ s.tasteProfile = d.tasteProfile) →
      ("spicy" ∈ tasteProfilesOf m s d →
        tasteDescription m s d = "a spicy and mixed taste profile") ∧
      ("spicy" ∉ tasteProfilesOf m s d → "sweet" ∈ tasteProfilesOf m s d →
        tasteDescription m s d = "a sweet and mixed taste profile") ∧
      ("spicy" ∉ tasteProfilesOf m s d → "sweet" ∉ tasteProfilesOf m s d →
        "savory" ∈ tasteProfilesOf m s d →
        tasteDescription m s d = "a savory and mixed taste profile") ∧
      ("spicy" ∉ tasteProfilesOf m s d → "sweet" ∉ tasteProfilesOf m s d →
        "savory" ∉ tasteProfilesOf m s d → "fresh" ∈ tasteProfilesOf m s d →
        tasteDescription m s d = "a fresh and mixed taste profile") ∧
      ("spicy" ∉ tasteProfilesOf m s d → "sweet" ∉ tasteProfilesOf m s d →
        "savory" ∉ tasteProfilesOf m s d → "fresh" ∉ tasteProfilesOf m s d →
        tasteDescription m s d = "a mixed taste profile")) := by
  refine ⟨fun tc ap => rfl, ?_, ?_⟩
  · intro h
    have hlen : [m.tasteProfile, s.tasteProfile, d.tasteProfile].dedup.length = 1 :=
      dedup3_len1.mpr h
    simp only [tasteDescription]
    rw [if_pos hlen]
  · intro hne
    have hlen : ¬ [m.tasteProfile, s.tasteProfile, d.tasteProfile].dedup.length = 1 :=
      fun hl => hne (dedup3_len1.mp hl)
    simp only [tasteDescription, tasteProfilesOf]
    refine ⟨?_, ?_, ?_, ?_, ?_⟩
    · intro hsp
      rw [if_neg hlen, if_pos (List.mem_dedup.mpr hsp)]
    · intro hnsp hsw
      rw [if_neg hlen, if_neg (fun hmem => hnsp (List.mem_dedup.mp hmem)),
        if_pos (List.mem_dedup.mpr hsw)]
    · intro hnsp hnsw hsv
      rw [if_neg hlen, if_neg (fun hmem => hnsp (List.mem_dedup.mp hmem)),
        if_neg (fun hmem => hnsw (List.mem_dedup.mp hmem)),
        if_pos (List.mem_dedup.mpr hsv)]
    · intro hnsp hnsw hnsv hfr
      rw [if_neg hlen, if_neg (fun hmem => hnsp (List.mem_dedup.mp hmem)),
        if_neg (fun hmem => hnsw (List.mem_dedup.mp hmem)),
        if_neg (fun hmem => hnsv (List.mem_dedup.mp hmem)),
        if_pos (List.mem_dedup.mpr hfr)]
    · intro hnsp hnsw hnsv hnfr
      rw [if_neg hlen, if_neg (fun hmem => hnsp (List.mem_dedup.mp hmem)),
        if_neg (fun hmem => hnsw (List.mem_dedup.mp hmem)),
        if_neg (fun hmem => hnsv (List.mem_dedup.mp hmem)),
        if_neg (fun hmem => hnfr (List.mem_dedup.mp hmem))]

/-- Claim C8 (amended) - for any catalog and any requested number of days
up to the 7 available day labels, the planner returns a plan with exactly
one daily menu per day index, in calendar order; shortfall days do not abort
the run.  (For more than 7 days the Go code panics on the day-name lookup,
modelled here by the `none` result.) -/
theorem C8_week_structure
    {menu : List MenuItem} {numDays slots : Nat} {minC maxC : Int}
    {rng : Nat → Nat × Nat × Nat}
    (h : numDays ≤ 7) :
    ∃ plan, generateMenuSuggestions menu numDays slots minC maxC rng = some plan ∧
      plan.menuPlan.length = numDays ∧
      ∀ i, i < numDays → (plan.menuPlan.getD i default).day = dayNames.getD i "" := by
  have hlen : (0 : Nat) + numDays ≤ dayNames.length := by
    simp only [dayNames, List.length_cons, List.length_nil]
    omega
  obtain ⟨days, st2, hw, hdlen, hdays⟩ := weekLoop_some hlen
  refine ⟨{ menuPlan := days }, ?_, hdlen, ?_⟩
  · rw [generateMenuSuggestions, hw]
  · intro i hi
    have := hdays i (by omega)
    rw [Nat.zero_add] at this
    exact this

/-- Claim C9 - plan generation is a deterministic function of the catalog,
the parameters and the random draw stream: two runs over the same catalog
and parameters whose streams agree pointwise produce identical plans. -/
theorem C9_deterministic_given_rng
    {menu : List MenuItem} {numDays slots : Nat} {minC maxC : Int}
    {rng1 rng2 : Nat → Nat × Nat × Nat}
    (h : ∀ n, rng1 n = rng2 n) :
    generateMenuSuggestions menu numDays slots minC maxC rng1 =
      generateMenuSuggestions menu numDays slots minC maxC rng2 := by
  have he : rng1 = rng2 := funext h
  rw [he]



/-- Claim C10 (amended) - the sampler draws only from the main, side and
drink pools of the categorized catalog, so an item with an unrecognized
category is never itself drawn; its name can only appear in a combo when a
recognized-category item shares that name.  Hence if no main/side/drink item
shares the unrecognized item's name, that name appears in no accepted combo. -/
theorem C10_unrecognized_category_excluded
    {menu : List MenuItem} {numDays slots : Nat} {minC maxC : Int}
    {rng : Nat → Nat × Nat × Nat} {plan : MenuPlan}
    (h : generateMenuSuggestions menu numDays slots minC maxC rng = some plan)
    {x : MenuItem} (hx : x ∈ menu)
    (hcat : x.category ≠ "main" ∧ x.category ≠ "side" ∧ x.category ≠ "drink")
    (hname : ∀ y ∈ menu, y.itemName = x.itemName →
      y.category ≠ "main" ∧ y.category ≠ "side" ∧ y.category ≠ "drink")
    {dm : DailyMenu} (hdm : dm ∈ plan.menuPlan) {c : Combo} (hc : c ∈ dm.combos) :
    c.main ≠ x.itemName ∧ c.side ≠ x.itemName ∧ c.drink ≠ x.itemName := by
  obtain ⟨st2, hW⟩ := generateMenuSuggestions_eq_some h
  obtain ⟨m, hmm, s, hsm, d, hdm2, f1, f2, f3, -, -⟩ := weekLoop_shape hW hdm hc
  rw [categorizeMenu, List.mem_filter] at hmm hsm hdm2
  refine ⟨?_, ?_, ?_⟩
  · rw [f1]
    intro heq
    exact (hname m hmm.1 heq).1 (by simpa using hmm.2)
  · rw [f2]
    intro heq
    exact (hname s hsm.1 heq).2.1 (by simpa using hsm.2)
  · rw [f3]
    intro heq
    exact (hname d hdm2.1 heq).2.2 (by simpa using hdm2.2)



/-! ## Concrete fixtures for witnesses and counterexamples -/

/-- The accepted worked example of the spec: a savory main. -/
def exVeggieBurger : MenuItem :=
  { itemName := "Veggie Burger", category := "main", calories := 500,
    tasteProfile := "savory", popularityScore := 8 }

/-- A savory side whose popularity keeps the spread within 0.15. -/
def exFries : MenuItem :=
  { itemName := "Fries", category := "side", calories := 150,
    tasteProfile := "savory", popularityScore := (79 : ℚ) / 10 }

/-- A fresh zero-calorie drink. -/
def exWater : MenuItem :=
  { itemName := "Water", category := "drink", calories := 0,
    tasteProfile := "fresh", popularityScore := (79 : ℚ) / 10 }

/-- A minimal catalog with one item per role. -/
def exMenu : List MenuItem := [exVeggieBurger, exFries, exWater]

/-- A draw stream that always picks index 0 in every pool. -/
def exRng : Nat → Nat × Nat × Nat := fun _ => (0, 0, 0)

/-- A pointwise-equal reformulation of `exRng`. -/
def exRngB : Nat → Nat × Nat × Nat := fun n => (n * 0, 0, 0)

/-- The 1-day, 1-slot plan over `exMenu`. -/
def exPlan : MenuPlan :=
  (generateMenuSuggestions exMenu 1 1 550 800 exRng).getD { menuPlan := [] }

def exDay : DailyMenu := exPlan.menuPlan.getD 0 default

def exCombo : Combo := exDay.combos.getD 0 default

/-- Two further drinks so that four distinct signatures exist. -/
def exSoda : MenuItem :=
  { itemName := "Soda", category := "drink", calories := 0,
    tasteProfile := "sweet", popularityScore := (79 : ℚ) / 10 }

def exJuice : MenuItem :=
  { itemName := "Juice", category := "drink", calories := 0,
    tasteProfile := "fresh", popularityScore := (79 : ℚ) / 10 }

def exMenu5 : List MenuItem := [exVeggieBurger, exFries, exWater, exSoda, exJuice]

/-- A draw stream cycling through the three drinks, one draw per day. -/
def exRngCycle : Nat → Nat × Nat × Nat := fun p => (0, 0, p % 3)

/-- A 4-day, 1-slot plan in which the Water triple is accepted on day 0 and
again on day 3. -/
def exPlan4 : MenuPlan :=
  (generateMenuSuggestions exMenu5 4 1 550 800 exRngCycle).getD { menuPlan := [] }

def exComboD0 : Combo := (exPlan4.menuPlan.getD 0 default).combos.getD 0 default

def exComboD3 : Combo := (exPlan4.menuPlan.getD 3 default).combos.getD 0 default

/-- An item with an unrecognized category and a fresh name. -/
def exCake : MenuItem :=
  { itemName := "Cake", category := "dessert", calories := 300,
    tasteProfile := "sweet", popularityScore := 5 }

def exMenuCake : List MenuItem := [exVeggieBurger, exFries, exWater, exCake]

def exPlanCake : MenuPlan :=
  (generateMenuSuggestions exMenuCake 1 1 550 800 exRng).getD { menuPlan := [] }

/-- An item with an unrecognized category sharing the main item's name. -/
def exBurgerDessert : MenuItem :=
  { itemName := "Veggie Burger", category := "dessert", calories := 300,
    tasteProfile := "sweet", popularityScore := 5 }

def exMenuClash : List MenuItem := [exVeggieBurger, exFries, exWater, exBurgerDessert]

def exPlanClash : MenuPlan :=
  (generateMenuSuggestions exMenuClash 1 1 550 800 exRng).getD { menuPlan := [] }

def exFreshState : GenState :=
  { rngPos := 0, day1Used := [], sigMap := [], globalComboCounter := 0 }




/-! ## Witnesses and counterexamples -/

/-- Witness for C1: the accepted example combo of the spec satisfies the
calorie band and the popularity-spread tolerance. -/
theorem C1_witness :
    ∃ m ∈ categorizeMenu exMenu "main", ∃ s ∈ categorizeMenu exMenu "side",
      ∃ d ∈ categorizeMenu exMenu "drink",
      exCombo.main = m.itemName ∧ exCombo.side = s.itemName ∧ exCombo.drink = d.itemName ∧
      exCombo.calorieCount = m.calories + s.calories + d.calories ∧
      (550 : Int) ≤ exCombo.calorieCount ∧ exCombo.calorieCount ≤ (800 : Int) ∧
      max m.popularityScore (max s.popularityScore d.popularityScore) -
        min m.popularityScore (min s.popularityScore d.popularityScore) ≤
        (15 / 100 : ℚ) := by
  have h : generateMenuSuggestions exMenu 1 1 550 800 exRng = some exPlan := rfl
  have hdm : exDay ∈ exPlan.menuPlan := by with_unfolding_all decide
  have hc : exCombo ∈ exDay.combos := by with_unfolding_all decide
  exact C1_accepted_combo_constraints h hdm hc

/-- Witness for C2: in the 4-day fixture the Water triple is accepted on day
0 and day 3, and the theorem yields the 3-day separation. -/
theorem C2_witness :
    comboSigOf exComboD0 = comboSigOf exComboD3 ∧
    ((0 = 3 ∧ exComboD0 = exComboD3) ∨ 0 + 3 ≤ 3 ∨ 3 + 3 ≤ 0) := by
  have h : generateMenuSuggestions exMenu5 4 1 550 800 exRngCycle = some exPlan4 := rfl
  have hi : 0 < exPlan4.menuPlan.length := by with_unfolding_all decide
  have hj : 3 < exPlan4.menuPlan.length := by with_unfolding_all decide
  have hci : exComboD0 ∈ (exPlan4.menuPlan.getD 0 default).combos := by
    with_unfolding_all decide
  have hcj : exComboD3 ∈ (exPlan4.menuPlan.getD 3 default).combos := by
    with_unfolding_all decide
  have hsig : comboSigOf exComboD0 = comboSigOf exComboD3 := by with_unfolding_all decide
  exact ⟨hsig, C2_signature_window h hi hj hci hcj hsig⟩

/-- Witness for C3 at the 1-day fixture. -/
theorem C3_witness :
    List.Pairwise (fun a b => ∀ x ∈ comboNames a, x ∉ comboNames b) exDay.combos := by
  have h : generateMenuSuggestions exMenu 1 1 550 800 exRng = some exPlan := rfl
  have hdm : exDay ∈ exPlan.menuPlan := by with_unfolding_all decide
  exact C3_daily_item_exclusivity h hdm

/-- Witness for C4 at the 1-day fixture. -/
theorem C4_witness :
    (planCombos exPlan.menuPlan).map Combo.comboID =
      idsFrom 0 (planCombos exPlan.menuPlan).length ∧
    ((planCombos exPlan.menuPlan).map Combo.comboID).Nodup := by
  have h : generateMenuSuggestions exMenu 1 1 550 800 exRng = some exPlan := rfl
  exact C4_identifiers_unique_increasing h

/-- Witness for C5 at the 1-day fixture with all pools inhabited. -/
theorem C5_witness :
    (generateDailyCombos (categorizeMenu exMenu) 1 550 800 exRng true 0 exFreshState).1.length
      ≤ 1 ∧
    (generateDailyCombos (categorizeMenu exMenu) 1 550 800 exRng true 0
      exFreshState).2.globalComboCounter =
      exFreshState.globalComboCounter +
        (generateDailyCombos (categorizeMenu exMenu) 1 550 800 exRng true 0
          exFreshState).1.length ∧
    (generateDailyCombos (categorizeMenu exMenu) 1 550 800 exRng true 0 exFreshState).2.sigMap =
      (((generateDailyCombos (categorizeMenu exMenu) 1 550 800 exRng true 0
        exFreshState).1.map (fun c => (comboSigOf c, 0))).reverse) ++ exFreshState.sigMap ∧
    exFreshState.rngPos ≤
      (generateDailyCombos (categorizeMenu exMenu) 1 550 800 exRng true 0
        exFreshState).2.rngPos ∧
    (generateDailyCombos (categorizeMenu exMenu) 1 550 800 exRng true 0
      exFreshState).2.rngPos ≤
      exFreshState.rngPos +
        (min 1
          ((generateDailyCombos (categorizeMenu exMenu) 1 550 800 exRng true 0
            exFreshState).1.length + 1)) * 5000 ∧
    ((generateDailyCombos (categorizeMenu exMenu) 1 550 800 exRng true 0
        exFreshState).1.length < 1 →
      exFreshState.rngPos +
        (generateDailyCombos (categorizeMenu exMenu) 1 550 800 exRng true 0
          exFreshState).1.length + 5000 ≤
        (generateDailyCombos (categorizeMenu exMenu) 1 550 800 exRng true 0
          exFreshState).2.rngPos) := by
  have hm : categorizeMenu exMenu "main" ≠ [] := by decide
  have hs : categorizeMenu exMenu "side" ≠ [] := by decide
  have hd : categorizeMenu exMenu "drink" ≠ [] := by decide
  exact C5_slot_attempt_cap hm hs hd

/-- Witness for C6: the empty catalog has empty role pools and the day is a
no-op on the state. -/
theorem C6_witness :
    generateDailyCombos (categorizeMenu []) 3 550 800 exRng true 0 exFreshState =
      ([], exFreshState) ∧
    (generateDailyCombos (categorizeMenu []) 3 550 800 exRng true 0
      exFreshState).2.globalComboCounter = exFreshState.globalComboCounter := by
  have h : categorizeMenu [] "main" = [] ∨ categorizeMenu [] "side" = [] ∨
      categorizeMenu [] "drink" = [] := Or.inl rfl
  exact C6_empty_pool_empty_day h

/-- Witness for C7: the spec's savory, savory, fresh example produces the
savory-and-mixed description. -/
theorem C7_witness :
    tasteDescription exVeggieBurger exFries exWater =
      "a savory and mixed taste profile" := by
  have hne : ¬ (exVeggieBurger.tasteProfile = exFries.tasteProfile ∧
      exFries.tasteProfile = exWater.tasteProfile) := by decide
  have h1 : "spicy" ∉ tasteProfilesOf exVeggieBurger exFries exWater := by decide
  have h2 : "sweet" ∉ tasteProfilesOf exVeggieBurger exFries exWater := by decide
  have h3 : "savory" ∈ tasteProfilesOf exVeggieBurger exFries exWater := by decide
  exact (((C7_reasoning_taste_description exVeggieBurger exFries exWater).2.2 hne).2.2.1
    h1 h2 h3)

/-- Counterexample for C8 as stated: with 8 requested days the run aborts
(none), returning no plan at all, because the Go code panics indexing the
7-entry day-name array. -/
theorem C8_counterexample :
    generateMenuSuggestions [] 8 3 550 800 exRng = none := by
  with_unfolding_all decide

/-- Witness for the amended C8 at one requested day. -/
theorem C8_witness :
    (1 : Nat) ≤ 7 ∧
    ∃ plan, generateMenuSuggestions exMenu 1 1 550 800 exRng = some plan ∧
      plan.menuPlan.length = 1 ∧
      ∀ i, i < 1 → (plan.menuPlan.getD i default).day = dayNames.getD i "" :=
  ⟨by decide, C8_week_structure (by decide)⟩

/-- Witness for C9: two syntactically different but pointwise-equal streams
generate the same plan. -/
theorem C9_witness :
    generateMenuSuggestions exMenu 1 1 550 800 exRng =
      generateMenuSuggestions exMenu 1 1 550 800 exRngB :=
  C9_deterministic_given_rng (fun n => rfl)

/-- Counterexample for C10 as stated: an item with category `dessert` that
shares its name with the main item; its name appears in an accepted combo. -/
theorem C10_counterexample :
    exBurgerDessert ∈ exMenuClash ∧
    exBurgerDessert.category ≠ "main" ∧ exBurgerDessert.category ≠ "side" ∧
    exBurgerDessert.category ≠ "drink" ∧
    generateMenuSuggestions exMenuClash 1 1 550 800 exRng = some exPlanClash ∧
    ((exPlanClash.menuPlan.getD 0 default).combos.getD 0 default).main =
      exBurgerDessert.itemName := by
  refine ⟨by decide, by decide, by decide, by decide, rfl, ?_⟩
  with_unfolding_all decide

/-- Witness for the amended C10: the dessert item `Cake` shares no name with
a recognized-category item and never appears in the plan's combo. -/
theorem C10_witness :
    exCake ∈ exMenuCake ∧
    ((exPlanCake.menuPlan.getD 0 default).combos.getD 0 default).main ≠ exCake.itemName ∧
    ((exPlanCake.menuPlan.getD 0 default).combos.getD 0 default).side ≠ exCake.itemName ∧
    ((exPlanCake.menuPlan.getD 0 default).combos.getD 0 default).drink ≠ exCake.itemName := by
  have h : generateMenuSuggestions exMenuCake 1 1 550 800 exRng = some exPlanCake := rfl
  have hx : exCake ∈ exMenuCake := by decide
  have hcat : exCake.category ≠ "main" ∧ exCake.category ≠ "side" ∧
      exCake.category ≠ "drink" := by decide
  have hname : ∀ y ∈ exMenuCake, y.itemName = exCake.itemName →
      y.category ≠ "main" ∧ y.category ≠ "side" ∧ y.category ≠ "drink" := by decide
  have hdm : exPlanCake.menuPlan.getD 0 default ∈ exPlanCake.menuPlan := by
    with_unfolding_all decide
  have hc : (exPlanCake.menuPlan.getD 0 default).combos.getD 0 default ∈
      (exPlanCake.menuPlan.getD 0 default).combos := by
    with_unfolding_all decide
  exact ⟨hx, C10_unrecognized_category_excluded h hx hcat hname hdm hc⟩

end MenuPlanner
